import Mathlib

/-!
# Streamer: audio-stream client and server

A shallow embedding of `src/A4/as_server.c` and `src/A4/as_client.c`.

* Bytes are `Char`s, buffers and C strings are `List Char`.
* A descriptor's read end is a list of segments (`Seg`): the bursts in which
  the bytes become readable, so that a statement over every list of segments
  is a statement over every way the stream is split into reads.
* Machine integers are `Nat`/`Int`, with the wrap-around written out where
  the C code converts between widths.
* A function whose C body can reach undefined behaviour returns an
  `Outcome`; a loop that may never end takes a fuel argument and returns
  `none` when the fuel runs out.

The helper library (`libas`) and the headers are not among the sources; the
helpers used by the two files are modelled below and the constants of the
headers are parameters.
-/

namespace Streamer

/-! ## Bytes, C strings, descriptors -/

/-- Content of a NUL-terminated C string stored in `bs`: the bytes before the
first NUL (what `strlen`, `strcmp` and `strtok` see). -/
def cstr (bs : List Char) : List Char :=
  bs.takeWhile (fun c => c != '\x00')

/-- Modelled from the spec: the request token of the list command (the macro
REQUEST_LIST of the missing header): `LIST`. -/
def REQUEST_LIST : List Char := ['L', 'I', 'S', 'T']

/-- Modelled from the spec: the request token of the stream command (the macro
REQUEST_STREAM of the missing header): `STREAM`. -/
def REQUEST_STREAM : List Char := ['S', 'T', 'R', 'E', 'A', 'M']

/-- Modelled from the spec: the line terminator CR LF (the macro
END_OF_MESSAGE_TOKEN of the missing header). -/
def END_OF_MESSAGE_TOKEN : List Char := ['\r', '\n']

/-- What the read end of a descriptor delivers next: a burst of bytes that
become readable together, or a failure of the next read. -/
inductive Seg where
  | bytes (bs : List Char)
  | fail
deriving DecidableEq, Repr

/-- Result of one `read(2)`: `error` is -1, `data bs` is the count
`bs.length` with the bytes stored (`data []` is a return value of 0). -/
inductive ReadResult where
  | error
  | data (bs : List Char)
deriving DecidableEq, Repr

/-- The system call `read(fd, buf, count)` on a read end: at most `count`
bytes of the first non-empty burst; 0 at the end of the stream. A `count`
above SSIZE_MAX = 2^63 - 1 (a negative `int` converted to `size_t`) makes the
call fail without reading: no buffer of that size lies in the address space
(EFAULT). -/
def read (count : Nat) : List Seg → ReadResult × List Seg
  | [] => if 9223372036854775807 < count then (.error, []) else (.data [], [])
  | .fail :: rest => if count = 0 then (.data [], .fail :: rest) else (.error, rest)
  | .bytes bs :: rest =>
    if bs = [] then read count rest
    else if count = 0 then (.data [], .bytes bs :: rest)
    else if 9223372036854775807 < count then (.error, .bytes bs :: rest)
    else (.data (bs.take count),
          if bs.drop count = [] then rest else .bytes (bs.drop count) :: rest)

/-- A connected socket seen from one end: `inp` is what the peer sends, `out`
the bytes written so far, `room` how many more bytes the peer takes before
writes fail (`none`: every write succeeds). -/
structure Sock where
  inp : List Seg
  out : List Char
  room : Option Nat
deriving DecidableEq, Repr

/-- Modelled from the spec: write_precisely (libas, not among the sources)
writes all of `bs` to the socket; the flag is false when it reports an error
(-1), in which case only the bytes the peer still took were written. -/
def write_precisely (s : Sock) (bs : List Char) : Bool × Sock :=
  match s.room with
  | none => (true, ⟨s.inp, s.out ++ bs, none⟩)
  | some r =>
    if bs.length ≤ r then (true, ⟨s.inp, s.out ++ bs, some (r - bs.length)⟩)
    else (false, ⟨s.inp, s.out ++ bs.take r, some 0⟩)

/-- Modelled from the spec: read_precisely (libas, not among the sources)
reads exactly `n` bytes, over as many reads as it takes; `none` when it
reports an error (a failed read, or the end of the stream before `n` bytes). -/
def read_precisely (n : Nat) : List Seg → Option (List Char) × List Seg
  | [] => if n = 0 then (some [], []) else (none, [])
  | .fail :: rest => if n = 0 then (some [], .fail :: rest) else (none, rest)
  | .bytes bs :: rest =>
    if n = 0 then (some [], .bytes bs :: rest)
    else if n ≤ bs.length then
      (some (bs.take n), if bs.drop n = [] then rest else .bytes (bs.drop n) :: rest)
    else
      match read_precisely (n - bs.length) rest with
      | (some more, rest') => (some (bs ++ more), rest')
      | (none, rest') => (none, rest')

/-- Modelled from the spec: find_network_newline (libas, not among the sources)
looks for the first CR LF among the buffered bytes; when there is one it
returns the bytes before it and leaves the bytes after it in the buffer. -/
def find_network_newline : List Char → Option (List Char × List Char)
  | [] => none
  | [_] => none
  | a :: b :: t =>
    if a = '\r' ∧ b = '\n' then some ([], t)
    else
      match find_network_newline (b :: t) with
      | some (line, rest) => some (a :: line, rest)
      | none => none

/-- Outcome of a C function that may reach undefined behaviour (an access
outside an array, a NULL or uninitialised pointer, an overflowed buffer):
`ret value st` is a normal return of `value` in state `st`. -/
inductive Outcome (σ : Type) where
  | undefined
  | ret (value : Int) (st : σ)
deriving DecidableEq, Repr

/-! ## Server: the catalog and the list response (as_server.c) -/

/-- The struct Library: the root path and the array `files` of C strings
(each entry is the content of one string); `num_files` is the length of the
array. -/
structure Library where
  path : List Char
  files : List (List Char)
deriving DecidableEq, Repr

/-- The field `num_files`. -/
def Library.num_files (library : Library) : Nat := library.files.length

/-- The call `sprintf(file_index_str, "%d", i)` with `char file_index_str[10]`:
the decimal digits of `i`; `none` when the digits and the terminating NUL do
not fit the 10 bytes. -/
def sprintf_d (i : Nat) : Option (List Char) :=
  if (Nat.toDigits 10 i).length < 10 then some (Nat.toDigits 10 i) else none

/-- The loop of list_request_response, `for (i = num_files - 1; i > -1; i--)`,
entered with `i + 1` entries left; the results of write_precisely are not
looked at. -/
def list_request_response_loop (library : Library) : Nat → Sock → Option Sock
  | 0, s => some s
  | i + 1, s =>
    match library.files[i]?, sprintf_d i with
    | some file, some file_index_str =>
      let s1 := (write_precisely s file_index_str).2
      let s2 := (write_precisely s1 [':']).2
      let s3 := (write_precisely s2 file).2
      let s4 := (write_precisely s3 ['\r', '\n']).2
      list_request_response_loop library i s4
    | _, _ => none

/-- The function list_request_response (as_server.c:82-107). -/
def list_request_response (client : Sock) (library : Library) : Outcome Sock :=
  match list_request_response_loop library library.num_files client with
  | some s => .ret 0 s
  | none => .undefined

/-- The wire form of a catalog as the specification gives it: for `i` from
`N - 1` down to 0, decimal `i`, a colon, `files[i]`, CR LF. -/
def list_wire (files : List (List Char)) : List Char :=
  (((List.range files.length).reverse).map
    (fun i => Nat.toDigits 10 i ++ [':'] ++ files.getD i [] ++ ['\r', '\n'])).flatten

/-! ## Client: the list request (as_client.c) -/

/-- The system call `write(fd, buf, n)` on a socket: the number of bytes
taken, which may be short; `none` is -1. -/
def write (s : Sock) (bs : List Char) : Option Nat × Sock :=
  match s.room with
  | none => (some bs.length, ⟨s.inp, s.out ++ bs, none⟩)
  | some r =>
    if r = 0 ∧ bs ≠ [] then (none, s)
    else (some (min r bs.length), ⟨s.inp, s.out ++ bs.take r, some (r - min r bs.length)⟩)

/-- One call of `strtok` with the delimiter set ":" on the string `s` (the
first call on a string, or a later call on what the previous one left):
leading colons are skipped; `none` is NULL (no token); otherwise the token
and the rest of the string behind the colon that ended it. -/
def strtok (s : List Char) : Option (List Char × List Char) :=
  let s1 := s.dropWhile (fun c => c == ':')
  if s1 = [] then none
  else some (s1.takeWhile (fun c => c != ':'), (s1.dropWhile (fun c => c != ':')).drop 1)

/-- The C function `isspace` in the C locale. -/
def isspace (c : Char) : Bool :=
  c == ' ' || c == '\t' || c == '\n' || c == '\x0b' || c == '\x0c' || c == '\r'

/-- Value of the leading decimal digits of `s`, continuing from `acc`. -/
def strtol_digits : List Char → Nat → Nat
  | [], acc => acc
  | c :: cs, acc => if c.isDigit then strtol_digits cs (acc * 10 + (c.toNat - 48)) else acc

/-- The call `strtol(s, NULL, 10)` with a 64-bit long: white space is
skipped, a sign is read, then the leading digits; the value saturates at
LONG_MIN and LONG_MAX. -/
def strtol (s : List Char) : Int :=
  match s.dropWhile isspace with
  | '-' :: t => max (-(strtol_digits t 0 : Int)) (-9223372036854775808)
  | '+' :: t => min (strtol_digits t 0 : Int) 9223372036854775807
  | t => min (strtol_digits t 0 : Int) 9223372036854775807

/-- Conversion of a long to the 32-bit `int` it is assigned to (wrap-around
modulo 2^32). -/
def int_of_long (v : Int) : Int := (v + 2147483648) % 4294967296 - 2147483648

/-- The parse at the end of get_next_filename (as_client.c:77-83) of the line
found: `strtok`, `strtol`, `strtok`, `memmove`. `none` when a `strtok` result
is NULL, which the code passes on to `strtol` or `strlen`. -/
def parse_filename (line : List Char) : Option (Int × List Char) :=
  match strtok line with
  | none => none
  | some (tok1, rest) =>
    match strtok rest with
    | none => none
    | some (tok2, _) => some (int_of_long (strtol tok1), tok2)

/-- The client's connection: the socket and the static buffer of
get_next_filename (its first `bytes_in_buffer` bytes). -/
structure Client where
  sock : Sock
  buf : List Char
deriving DecidableEq, Repr

/-- Result of get_next_filename. -/
inductive NextFilename where
  | error (c : Client)
  | undefined
  | line (index : Int) (filename : List Char) (c : Client)
deriving DecidableEq, Repr

/-- The end of get_next_filename once find_network_newline has returned the
line `line` and left `rest` in the buffer. -/
def get_next_filename_found (c : Client) (line rest : List Char) : NextFilename :=
  match parse_filename (cstr line) with
  | none => .undefined
  | some (index, filename) => .line index filename ⟨c.sock, rest⟩

/-- The function get_next_filename (as_client.c:55-84) with
R = RESPONSE_BUFFER_SIZE and B = BUFFER_BLEED_OFF (B at most R); the first
argument bounds the reads of the loop, `none` is a loop that has not ended.
When the buffer holds R bytes after a read, `memmove` shifts it by B bytes and
`bytes_in_buffer` stays R. -/
def get_next_filename (R B : Nat) : Nat → Client → Option NextFilename
  | 0, c =>
    match find_network_newline c.buf with
    | some (line, rest) => some (get_next_filename_found c line rest)
    | none => none
  | fuel + 1, c =>
    match find_network_newline c.buf with
    | some (line, rest) => some (get_next_filename_found c line rest)
    | none =>
      match read (R - c.buf.length) c.sock.inp with
      | (.error, inp1) => some (.error ⟨⟨inp1, c.sock.out, c.sock.room⟩, c.buf⟩)
      | (.data bs, inp1) =>
        let buf1 := c.buf ++ bs
        let buf2 := if buf1.length = R then buf1.drop B ++ buf1.drop (R - B) else buf1
        get_next_filename R B fuel ⟨⟨inp1, c.sock.out, c.sock.room⟩, buf2⟩

/-- The client's struct Library while list_request fills it: `num_files` as
stored, and the array `files`. A slot is `none` until a block has been
allocated for it (`[]` is the NULL array); `some bytes` is a heap block with
the bytes that `strncpy` has stored in it. -/
structure ClientLibrary where
  path : List Char
  num_files : Int
  files : List (Option (List Char))
deriving DecidableEq, Repr

/-- The call `strncpy(dst, src, n)` where `dst` is the block that
`malloc(size)` has just returned and `src` holds a C string with the
characters `src`: `strncpy` writes exactly `n` bytes, the characters of the
string and then NULs. `none` when `n` is more than `size`: the copy writes
past the end of the block. -/
def strncpy_block (size : Nat) (src : List Char) (n : Nat) : Option (List Char) :=
  if n ≤ size then some ((src ++ List.replicate (n - src.length) '\x00').take n) else none

/-- Step 7 of list_request (as_client.c:168-171) prints every `files[i]` with
`%s`, which reads the block up to its first NUL: `false` when a slot has no
block or a block that holds no NUL (the read runs past the end of the
block). -/
def files_printable (files : List (Option (List Char))) : Bool :=
  files.all fun slot =>
    match slot with
    | some bytes => bytes.contains '\x00'
    | none => false

/-- Steps 7 and 8 of list_request (as_client.c:167-175): the library is
printed and `num_files` is returned. -/
def list_request_print (library : ClientLibrary) (c : Client) :
    Outcome (ClientLibrary × Client) :=
  if files_printable library.files then .ret library.num_files (library, c) else .undefined

/-- Step 6 of list_request (as_client.c:146-165), the loop
`while (file_counter < library->num_files - 1)`, and the steps after it; the
first argument bounds the iterations of the loop and `fuel` the reads of each
call of get_next_filename. The block of a later line is
`malloc(strlen(filename))` and receives `strlen(filename) + 1` bytes from
`strncpy`. -/
def list_request_rest (R B fuel : Nat) :
    Nat → Nat → ClientLibrary → Client → Option (Outcome (ClientLibrary × Client))
  | 0, file_counter, library, c =>
    if (file_counter : Int) < library.num_files - 1 then none
    else some (list_request_print library c)
  | steps + 1, file_counter, library, c =>
    if (file_counter : Int) < library.num_files - 1 then
      match get_next_filename R B fuel c with
      | none => none
      | some .undefined => some .undefined
      | some (.error c1) => some (.ret (-1) (library, c1))
      | some (.line index filename c1) =>
        if index = -1 then some (.ret (-1) (library, c1))
        else
          let pi := library.num_files - file_counter - 2
          match strncpy_block filename.length filename (filename.length + 1) with
          | none => some .undefined
          | some block =>
            list_request_rest R B fuel steps (file_counter + 1)
              ⟨library.path, library.num_files, library.files.set pi.toNat (some block)⟩ c1
    else some (list_request_print library c)

/-- The function list_request (as_client.c:99-176). A first index of
INT_MAX makes `index + 1` overflow; a negative `num_files` makes the `malloc`
of the array fail, any other `malloc` is taken to succeed. The block of the
first line is `malloc(strlen(filename))` and receives `strlen(filename)`
bytes from `strncpy`, without a NUL. -/
def list_request (R B fuel : Nat) (c : Client) (library : ClientLibrary) :
    Option (Outcome (ClientLibrary × Client)) :=
  match write c.sock (REQUEST_LIST ++ END_OF_MESSAGE_TOKEN) with
  | (none, sock1) => some (.ret (-1) (library, ⟨sock1, c.buf⟩))
  | (some _, sock1) =>
    match get_next_filename R B fuel ⟨sock1, c.buf⟩ with
    | none => none
    | some .undefined => some .undefined
    | some (.error c1) => some (.ret (-1) (library, c1))
    | some (.line index filename c1) =>
      if index = -1 then some (.ret (-1) (library, c1))
      else if index = 2147483647 then some .undefined
      else
        let num_files := index + 1
        if num_files < 0 then some (.ret (-1) (⟨library.path, num_files, []⟩, c1))
        else
          match strncpy_block filename.length filename filename.length with
          | none => some .undefined
          | some block =>
            list_request_rest R B fuel fuel 0
              ⟨library.path, num_files,
                (List.replicate num_files.toNat none).set (num_files - 1).toNat (some block)⟩
              c1

/-- One line of a list response: decimal index, a colon, the path, CR LF. -/
def wire_line (l : Nat × List Char) : List Char :=
  Nat.toDigits 10 l.1 ++ [':'] ++ l.2 ++ ['\r', '\n']

/-- The bytes a read end still holds when no read fails. -/
def pending : List Seg → List Char
  | [] => []
  | .fail :: rest => pending rest
  | .bytes bs :: rest => bs ++ pending rest

/-- A path that a line of the list response carries unchanged: not empty and
free of colons, line feeds and NULs. -/
abbrev PathOk (p : List Char) : Prop :=
  p ≠ [] ∧ ':' ∉ p ∧ '\n' ∉ p ∧ '\x00' ∉ p

/-! ## Server: the stream response and the connection loop (as_server.c) -/

/-- The value of the uint32_t that `*(uint32_t *)buffer` reads from the first
four bytes of `buffer` on a little-endian (`le = true`) or big-endian host;
`none` when fewer than four bytes have been stored there. -/
def load32 (le : Bool) : List Char → Option Nat
  | b0 :: b1 :: b2 :: b3 :: _ =>
    if le then
      some (b0.toNat % 256 + 256 * (b1.toNat % 256) + 65536 * (b2.toNat % 256)
        + 16777216 * (b3.toNat % 256))
    else
      some (b3.toNat % 256 + 256 * (b2.toNat % 256) + 65536 * (b1.toNat % 256)
        + 16777216 * (b0.toNat % 256))
  | _ => none

/-- The four bytes that `write(fd, &v, 4)` sends for a uint32_t `v` on a
little-endian or big-endian host, lowest address first. -/
def store32 (le : Bool) (v : Nat) : List Char :=
  if le then
    [Char.ofNat (v % 256), Char.ofNat (v / 256 % 256), Char.ofNat (v / 65536 % 256),
      Char.ofNat (v / 16777216 % 256)]
  else
    [Char.ofNat (v / 16777216 % 256), Char.ofNat (v / 65536 % 256),
      Char.ofNat (v / 256 % 256), Char.ofNat (v % 256)]

/-- Byte swap of a 32-bit value. -/
def bswap32 (v : Nat) : Nat :=
  (v % 256) * 16777216 + (v / 256 % 256) * 65536 + (v / 65536 % 256) * 256
    + v / 16777216 % 256

/-- The function `htonl`: a byte swap on a little-endian host, the identity on
a big-endian one. -/
def htonl (le : Bool) (v : Nat) : Nat := if le then bswap32 v else v

/-- The function `ntohl`. -/
def ntohl (le : Bool) (v : Nat) : Nat := if le then bswap32 v else v

/-- Result of step 1 of stream_request_response. -/
inductive IndexRead where
  | failed (s : Sock)
  | undefined
  | index (file_index : Nat) (s : Sock)
deriving DecidableEq, Repr

/-- Step 1 of stream_request_response (as_server.c:152-164): the file index
is taken from the first `num_pr_bytes` bytes of `post_req`, completed through
read_precisely when these are fewer than four, and converted by `ntohl`. -/
def read_file_index (le : Bool) (client : Sock) (post_req : List Char)
    (num_pr_bytes : Nat) : IndexRead :=
  if num_pr_bytes < 4 then
    match read_precisely (4 - num_pr_bytes) client.inp with
    | (none, inp1) => .failed ⟨inp1, client.out, client.room⟩
    | (some bs, inp1) =>
      match load32 le (post_req.take num_pr_bytes ++ bs) with
      | none => .undefined
      | some v => .index (ntohl le v) ⟨inp1, client.out, client.room⟩
  else
    match load32 le post_req with
    | none => .undefined
    | some v => .index (ntohl le v) client

/-- The function _load_file_size_into_buffer (as_server.c:110-125) for a file
of `size` bytes on which both `fseek` succeed: the four bytes stored. -/
def _load_file_size_into_buffer (size : Nat) : List Char :=
  let file_size := size % 4294967296
  [Char.ofNat ((file_size >>> 24) &&& 0xFF), Char.ofNat ((file_size >>> 16) &&& 0xFF),
    Char.ofNat ((file_size >>> 8) &&& 0xFF), Char.ofNat (file_size &&& 0xFF)]

/-- Step 4 of stream_request_response (as_server.c:202-210): the loop over
`fread(file_buffer, 1, STREAM_CHUNK_SIZE, file)` with C = STREAM_CHUNK_SIZE on
the bytes of the file not yet read; the first argument bounds the iterations
(the rest of the file shrinks in each, so its length plus one is enough). -/
def send_file_chunks (C : Nat) : Nat → List Char → Sock → Sock
  | 0, _, s => s
  | fuel + 1, rest, s =>
    if 0 < (rest.take C).length then
      if (rest.take C).length < C then (write_precisely s (rest.take C)).2
      else send_file_chunks C fuel (rest.drop C) (write_precisely s (rest.take C)).2
    else s

/-- Steps 2 to 6 of stream_request_response (as_server.c:170-216) for the
decoded `file_index`. `join` is _join_path (libas, not among the sources) and
`fopen` gives the content of the file at a path, `none` when it cannot be
opened. `library->files[file_index]` is read without a range check: an index
outside the array is undefined. The results of write_precisely are not looked
at. -/
def stream_request_response_file (C : Nat)
    (join : List Char → List Char → List Char) (fopen : List Char → Option (List Char))
    (library : Library) (file_index : Nat) (s : Sock) : Outcome Sock :=
  match library.files[file_index]? with
  | none => .undefined
  | some name =>
    match fopen (join library.path name) with
    | none => .ret (-1) s
    | some content =>
      let s1 := (write_precisely s (_load_file_size_into_buffer content.length)).2
      .ret 0 (send_file_chunks C (content.length + 1) content s1)

/-- The function stream_request_response (as_server.c:147-218). -/
def stream_request_response (le : Bool) (C : Nat)
    (join : List Char → List Char → List Char) (fopen : List Char → Option (List Char))
    (client : Sock) (library : Library) (post_req : List Char) (num_pr_bytes : Nat) :
    Outcome Sock :=
  match read_file_index le client post_req num_pr_bytes with
  | .failed s => .ret (-1) s
  | .undefined => .undefined
  | .index file_index s => stream_request_response_file C join fopen library file_index s

/-- The function handle_client (as_server.c:463-526) with
Q = REQUEST_BUFFER_SIZE; `buf` holds the `bytes_in_buf` bytes of
request_buffer. The first argument bounds the reads of the loop, `none` is a
loop that has not ended. -/
def handle_client (le : Bool) (Q C : Nat) (join : List Char → List Char → List Char)
    (fopen : List Char → Option (List Char)) (library : Library) :
    Nat → Sock → List Char → Option (Outcome Sock)
  | 0, _, _ => none
  | fuel + 1, client, buf =>
    match read (Q - buf.length) client.inp with
    | (.error, inp1) => some (.ret (-1) ⟨inp1, client.out, client.room⟩)
    | (.data [], inp1) => some (.ret 0 ⟨inp1, client.out, client.room⟩)
    | (.data (b :: bs), inp1) =>
      match find_network_newline (buf ++ b :: bs) with
      | none =>
        handle_client le Q C join fopen library fuel ⟨inp1, client.out, client.room⟩
          (buf ++ b :: bs)
      | some (line, rest) =>
        if cstr line = REQUEST_LIST then
          match list_request_response ⟨inp1, client.out, client.room⟩ library with
          | .undefined => some .undefined
          | .ret v s =>
            if v < 0 then some (.ret (-1) s)
            else handle_client le Q C join fopen library fuel s rest
        else if cstr line = REQUEST_STREAM then
          match stream_request_response le C join fopen ⟨inp1, client.out, client.room⟩
              library rest (min 4 rest.length) with
          | .undefined => some .undefined
          | .ret v s =>
            if v < 0 then some (.ret (-1) s)
            else handle_client le Q C join fopen library fuel s (rest.drop (min 4 rest.length))
        else handle_client le Q C join fopen library fuel ⟨inp1, client.out, client.room⟩ rest

/-! ## Server: scanning the library (as_server.c) -/

/-- The call `strrchr(filename, '.')`: the suffix that starts at the last
dot, `none` (NULL) when there is no dot. -/
def strrchr_dot : List Char → Option (List Char)
  | [] => none
  | c :: t =>
    match strrchr_dot t with
    | some r => some r
    | none => if c = '.' then some (c :: t) else none

/-- The function _is_file_extension_supported (as_server.c:364-375); `exts` is
the table SUPPORTED_FILE_EXTS of the missing header. -/
def _is_file_extension_supported (exts : List (List Char)) (filename : List Char) : Bool :=
  exts.any (fun ext =>
    match strrchr_dot filename with
    | some files_ext => files_ext == ext
    | none => false)

/-- An entry that `readdir` returns: a regular file (DT_REG), a directory
(DT_DIR) with its own entries in `readdir` order (`none` when `opendir` fails
on it), or an entry of another type. -/
inductive DirEntry where
  | reg (d_name : List Char)
  | dir (d_name : List Char) (entries : Option (List DirEntry))
  | other (d_name : List Char)

mutual
/-- The function _depth_scan_library (as_server.c:378-438) on the directory at
`current_path`, given as its entries (`none`: it cannot be opened). `join` is
_join_path, taken not to run out of memory. -/
def _depth_scan_library (exts : List (List Char))
    (join : List Char → List Char → List Char) (library : Library)
    (current_path : List Char) : Option (List DirEntry) → Int × Library
  | none => (-1, library)
  | some entries => _depth_scan_entries exts join library current_path entries
/-- The `readdir` loop of _depth_scan_library on the entries not yet read. -/
def _depth_scan_entries (exts : List (List Char))
    (join : List Char → List Char → List Char) (library : Library)
    (current_path : List Char) : List DirEntry → Int × Library
  | [] => (0, library)
  | .reg d_name :: rest =>
    if _is_file_extension_supported exts d_name then
      _depth_scan_entries exts join
        ⟨library.path, library.files ++ [join current_path d_name]⟩ current_path rest
    else _depth_scan_entries exts join library current_path rest
  | .dir d_name entries :: rest =>
    if d_name = ['.'] ∨ d_name = ['.', '.'] then
      _depth_scan_entries exts join library current_path rest
    else
      match _depth_scan_library exts join library (join current_path d_name) entries with
      | (ret_code, library1) =>
        if ret_code < 0 then (-1, library1)
        else _depth_scan_entries exts join library1 current_path rest
  | .other _ :: rest => _depth_scan_entries exts join library current_path rest
end

/-- Modelled from the spec: _free_library (libas, not among the sources)
discards the whole sequence of paths: `files` is NULL and `num_files` is 0
afterwards. -/
def _free_library (library : Library) : Library := ⟨library.path, []⟩

/-- The function scan_library (as_server.c:443-460) on the root directory
`root` of the library. -/
def scan_library (exts : List (List Char)) (join : List Char → List Char → List Char)
    (library : Library) (root : Option (List DirEntry)) : Int × Library :=
  _depth_scan_library exts join (_free_library library) [] root

/-! ## Client: the stream request (as_client.c) -/

/-- What the function cannot decide itself during a transfer: the outcome of
each call of `select`, and of each `write` and `read` on the sinks, by the
number of the call. `select i` is `none` when the call fails, otherwise the
values of `FD_ISSET` afterwards for the socket, audio_out_fd and file_dest_fd;
`audio_write i` is `none` when the write fails and `some k` when at most `k`
bytes are taken; `audio_read i` is what the descriptor would deliver to a
`read` (an error for a write-only descriptor such as the pipe end and the
O_WRONLY file the callers pass). -/
structure Env where
  select : Nat → Option (Bool × Bool × Bool)
  audio_write : Nat → Option Nat
  file_write : Nat → Option Nat
  audio_read : Nat → ReadResult
  file_read : Nat → ReadResult

/-- A sink descriptor: the bytes it has received, the numbers of `write` and
`read` calls made on it, and whether it has been closed. -/
structure SinkState where
  written : List Char
  writes : Nat
  reads : Nat
  closed : Bool
deriving DecidableEq, Repr

/-- The state of send_and_process_stream_request in its loop. -/
structure Transfer where
  sock : Sock
  audio : SinkState
  file : SinkState
  selects : Nat
  continue_reading : Bool
  continue_writing_stdout : Bool
  continue_writing_file : Bool
  bytes_read : Int
  bytes_written : Int
  bytes_to_read : Int
deriving DecidableEq, Repr

/-- Result of one pass through the loop body. -/
inductive Step where
  | undefined
  | ret (value : Int) (t : Transfer)
  | next (t : Transfer)
deriving DecidableEq, Repr

/-- The count `MIN(bytes_to_read, 1024)` as `read` receives it: an `int`
converted to a 64-bit `size_t`. -/
def read_count (bytes_to_read : Int) : Nat :=
  if bytes_to_read < 1024 then
    if bytes_to_read < 0 then (bytes_to_read + 18446744073709551616).toNat
    else bytes_to_read.toNat
  else 1024

/-- The two writes that follow every successful read in the loop
(as_client.c:555-566, 584-595, 613-624): `write(audio_out_fd, buffer, num)`
when audio_out_fd >= 0, then `write(file_dest_fd, buffer, num)` when
file_dest_fd >= 0; a result of -1 ends the function with -1, any other
result is not looked at. -/
def write_sinks (env : Env) (audio_out_fd file_dest_fd : Int) (t : Transfer)
    (data : List Char) : Step :=
  let after_audio : Option Transfer :=
    if audio_out_fd ≥ 0 then
      match env.audio_write t.audio.writes with
      | none => none
      | some k =>
        some { t with audio := ⟨t.audio.written ++ data.take k, t.audio.writes + 1,
          t.audio.reads, t.audio.closed⟩ }
    else some t
  match after_audio with
  | none =>
    .ret (-1) { t with audio := ⟨t.audio.written, t.audio.writes + 1, t.audio.reads,
      t.audio.closed⟩ }
  | some t1 =>
    if file_dest_fd ≥ 0 then
      match env.file_write t1.file.writes with
      | none =>
        .ret (-1) { t1 with file := ⟨t1.file.written, t1.file.writes + 1, t1.file.reads,
          t1.file.closed⟩ }
      | some k =>
        .next { t1 with file := ⟨t1.file.written ++ data.take k, t1.file.writes + 1,
          t1.file.reads, t1.file.closed⟩ }
    else .next t1

/-- What follows a read of `data` (a positive count) in the loop: the buffer
holds 1024 bytes, the counter is decreased (an `int`), both sinks are
written. -/
def after_read (env : Env) (audio_out_fd file_dest_fd : Int) (t : Transfer)
    (data : List Char) (from_socket : Bool) : Step :=
  if 1024 < data.length then .undefined
  else if t.bytes_to_read - data.length < -2147483648 then .undefined
  else
    write_sinks env audio_out_fd file_dest_fd
      { t with
        bytes_read := if from_socket then t.bytes_read + data.length else t.bytes_read
        bytes_written := if from_socket then t.bytes_written else t.bytes_written + data.length
        bytes_to_read := t.bytes_to_read - data.length }
      data

/-- The block "Read from the server" of the loop (as_client.c:543-568). -/
def socket_block (env : Env) (audio_out_fd file_dest_fd : Int) (readable : Bool)
    (t : Transfer) : Step :=
  if readable then
    match read (read_count t.bytes_to_read) t.sock.inp with
    | (.error, inp1) => .ret (-1) { t with sock := ⟨inp1, t.sock.out, t.sock.room⟩ }
    | (.data [], inp1) =>
      .next { t with sock := ⟨inp1, t.sock.out, t.sock.room⟩, continue_reading := false }
    | (.data (b :: bs), inp1) =>
      after_read env audio_out_fd file_dest_fd
        { t with sock := ⟨inp1, t.sock.out, t.sock.room⟩ } (b :: bs) true
  else .next t

/-- The block "Write to the audio_out_fd" of the loop (as_client.c:570-597),
which calls `read` on audio_out_fd; as for every `read`, a count above
SSIZE_MAX makes the call fail. -/
def audio_block (env : Env) (audio_out_fd file_dest_fd : Int) (flagged : Bool)
    (t : Transfer) : Step :=
  if t.continue_writing_stdout ∧ audio_out_fd ≠ 0 ∧ flagged then
    let t1 := { t with audio := ⟨t.audio.written, t.audio.writes, t.audio.reads + 1,
      t.audio.closed⟩ }
    match (if 9223372036854775807 < read_count t.bytes_to_read then ReadResult.error
      else env.audio_read t.audio.reads) with
    | .error => .ret (-1) t1
    | .data d =>
      match d.take (read_count t.bytes_to_read) with
      | [] => .next { t1 with continue_writing_stdout := false }
      | b :: bs => after_read env audio_out_fd file_dest_fd t1 (b :: bs) false
  else .next t

/-- The block "Write to the file_dest_fd" of the loop (as_client.c:599-626),
which calls `read` on file_dest_fd; as for every `read`, a count above
SSIZE_MAX makes the call fail. -/
def file_block (env : Env) (audio_out_fd file_dest_fd : Int) (flagged : Bool)
    (t : Transfer) : Step :=
  if t.continue_writing_file ∧ file_dest_fd ≠ 0 ∧ flagged then
    let t1 := { t with file := ⟨t.file.written, t.file.writes, t.file.reads + 1,
      t.file.closed⟩ }
    match (if 9223372036854775807 < read_count t.bytes_to_read then ReadResult.error
      else env.file_read t.file.reads) with
    | .error => .ret (-1) t1
    | .data d =>
      match d.take (read_count t.bytes_to_read) with
      | [] => .next { t1 with continue_writing_file := false }
      | b :: bs => after_read env audio_out_fd file_dest_fd t1 (b :: bs) false
  else .next t

/-- One pass through the body of `while (continue_reading)`
(as_client.c:527-631). -/
def transfer_iteration (env : Env) (audio_out_fd file_dest_fd : Int) (t : Transfer) : Step :=
  match env.select t.selects with
  | none => .ret (-1) { t with selects := t.selects + 1 }
  | some (readable, audio_flag, file_flag) =>
    match socket_block env audio_out_fd file_dest_fd readable
        { t with selects := t.selects + 1 } with
    | .undefined => .undefined
    | .ret v t1 => .ret v t1
    | .next t1 =>
      match audio_block env audio_out_fd file_dest_fd audio_flag t1 with
      | .undefined => .undefined
      | .ret v t2 => .ret v t2
      | .next t2 =>
        match file_block env audio_out_fd file_dest_fd file_flag t2 with
        | .undefined => .undefined
        | .ret v t3 => .ret v t3
        | .next t3 =>
          if t3.bytes_to_read = 0 then .next { t3 with continue_reading := false }
          else .next t3

/-- Step 5 of send_and_process_stream_request (as_client.c:634-644): the
descriptors that are >= 0 are closed and 0 is returned. -/
def transfer_close (audio_out_fd file_dest_fd : Int) (t : Transfer) : Outcome Transfer :=
  .ret 0 { t with
    audio := ⟨t.audio.written, t.audio.writes, t.audio.reads,
      if audio_out_fd ≥ 0 then true else t.audio.closed⟩
    file := ⟨t.file.written, t.file.writes, t.file.reads,
      if file_dest_fd ≥ 0 then true else t.file.closed⟩ }

/-- The loop `while (continue_reading)` of send_and_process_stream_request and
what follows it; the first argument bounds the passes, `none` is a loop that
has not ended. -/
def transfer_loop (env : Env) (audio_out_fd file_dest_fd : Int) :
    Nat → Transfer → Option (Outcome Transfer)
  | 0, t =>
    if t.continue_reading then none else some (transfer_close audio_out_fd file_dest_fd t)
  | fuel + 1, t =>
    if t.continue_reading then
      match transfer_iteration env audio_out_fd file_dest_fd t with
      | .undefined => some .undefined
      | .ret v t1 => some (.ret v t1)
      | .next t1 => transfer_loop env audio_out_fd file_dest_fd fuel t1
    else some (transfer_close audio_out_fd file_dest_fd t)

/-- Conversion of a uint32_t to the `int` it is assigned to. -/
def int_of_uint32 (v : Nat) : Int :=
  if v % 4294967296 < 2147483648 then (v % 4294967296 : Nat) else (v % 4294967296 : Nat) - 4294967296

/-- The state in which the loop of send_and_process_stream_request starts
(as_client.c:506-517). -/
def transfer_start (sock : Sock) (audio file : SinkState) (audio_out_fd file_dest_fd : Int)
    (bytes_to_read : Int) : Transfer :=
  { sock := sock, audio := audio, file := file, selects := 0
    continue_reading := true
    continue_writing_stdout := if audio_out_fd < 0 then false else true
    continue_writing_file := if file_dest_fd < 0 then false else true
    bytes_read := 0, bytes_written := 0, bytes_to_read := bytes_to_read }

/-- The function send_and_process_stream_request (as_client.c:477-647) on a
host of byte order `le`. The size header is taken from one `read` of 4 bytes:
when that read returns fewer, the bytes of `file_size` it did not store are
uninitialised. -/
def send_and_process_stream_request (le : Bool) (env : Env) (fuel : Nat) (sockfd : Sock)
    (file_index : Nat) (audio_out_fd file_dest_fd : Int) (audio file : SinkState) :
    Option (Outcome Transfer) :=
  match write_precisely sockfd (REQUEST_STREAM ++ END_OF_MESSAGE_TOKEN) with
  | (false, s1) => some (.ret (-1) (transfer_start s1 audio file audio_out_fd file_dest_fd 0))
  | (true, s1) =>
    match write_precisely s1 (store32 le (htonl le file_index)) with
    | (false, s2) => some (.ret (-1) (transfer_start s2 audio file audio_out_fd file_dest_fd 0))
    | (true, s2) =>
      match read 4 s2.inp with
      | (.error, inp3) =>
        some (.ret (-1)
          (transfer_start ⟨inp3, s2.out, s2.room⟩ audio file audio_out_fd file_dest_fd 0))
      | (.data file_size, inp3) =>
        match load32 le file_size with
        | none => some .undefined
        | some v =>
          transfer_loop env audio_out_fd file_dest_fd fuel
            (transfer_start ⟨inp3, s2.out, s2.room⟩ audio file audio_out_fd file_dest_fd
              (int_of_uint32 (ntohl le v)))

/-- What a call of send_and_process_stream_request shows once it has
returned: the return value and the bytes the audio sink and the file sink
have received. `none` when it has not returned or its behaviour is
undefined. -/
def transfer_summary : Option (Outcome Transfer) → Option (Int × List Char × List Char)
  | some (.ret v t) => some (v, t.audio.written, t.file.written)
  | _ => none

/-- A fresh sink descriptor. -/
def SinkState.fresh : SinkState := ⟨[], 0, 0, false⟩

/-- An environment in which `select` reports the socket only and both sinks
are write-only descriptors (`read` on them fails); the two arguments say what
each `write` on the audio sink and on the file sink takes. -/
def Env.socket_only (audio_write file_write : Nat → Option Nat) : Env :=
  ⟨fun _ => some (true, false, false), audio_write, file_write,
    fun _ => .error, fun _ => .error⟩

/-! ## Specification-side listings and the supervisor (as_server.c) -/

mutual
/-- The catalog of a directory tree as the specification gives it: the
relative paths of the regular files with a supported extension, in depth-first
enumeration order (a file is listed when it is enumerated, a subdirectory
other than "." and ".." is listed completely when it is enumerated). -/
def dir_listing (exts : List (List Char)) (join : List Char → List Char → List Char)
    (current_path : List Char) : Option (List DirEntry) → List (List Char)
  | none => []
  | some entries => entries_listing exts join current_path entries
/-- The listing of the entries of one directory, in enumeration order. -/
def entries_listing (exts : List (List Char)) (join : List Char → List Char → List Char)
    (current_path : List Char) : List DirEntry → List (List Char)
  | [] => []
  | .reg d_name :: rest =>
    (if _is_file_extension_supported exts d_name then [join current_path d_name] else []) ++
      entries_listing exts join current_path rest
  | .dir d_name entries :: rest =>
    (if d_name = ['.'] ∨ d_name = ['.', '.'] then []
      else dir_listing exts join (join current_path d_name) entries) ++
      entries_listing exts join current_path rest
  | .other _ :: rest => entries_listing exts join current_path rest
end

/-- The loop of _wait_for_children (as_server.c:237-260) at index `i`:
`waitpid pid nohang` tells whether `waitpid` returned a value > 0 for `pid`
(`nohang` is the WNOHANG option); a reaped pid is removed by shifting the rest
of the array down, `num_connected_clients` (the length) goes down by one, and
`i` is incremented in either case. The first argument bounds the passes. -/
def _wait_for_children_loop (waitpid : Int → Bool → Bool) (immediate : Bool) :
    Nat → Nat → List Int → List Int
  | 0, _, client_conn_pids => client_conn_pids
  | fuel + 1, i, client_conn_pids =>
    if i < client_conn_pids.length then
      if waitpid (client_conn_pids.getD i 0) immediate then
        _wait_for_children_loop waitpid immediate fuel (i + 1) (client_conn_pids.eraseIdx i)
      else _wait_for_children_loop waitpid immediate fuel (i + 1) client_conn_pids
    else client_conn_pids

/-- The function _wait_for_children (as_server.c:235-261): the array of pids
it leaves; `num_connected_clients` is its length. The loop index goes up in
every pass, so as many passes as there are pids are enough. -/
def _wait_for_children (waitpid : Int → Bool → Bool) (client_conn_pids : List Int)
    (immediate : Bool) : List Int :=
  _wait_for_children_loop waitpid immediate client_conn_pids.length 0 client_conn_pids

/-- The first block of a pass of the loop of run_server (as_server.c:307-313)
on `num_intervals_without_scan`, for a scan_library that does not fail, with
K = LIBRARY_SCAN_INTERVAL: whether scan_library is called, and the counter
after the block. -/
def run_server_scan (K : Int) (num_intervals_without_scan : Int) : Bool × Int :=
  if num_intervals_without_scan ≥ K then (true, 0) else (false, num_intervals_without_scan)

/-- The counter at the end of a pass of the loop of run_server
(as_server.c:306-354) that reaches its end (no failed scan, no failed `select`
or `fork`, no quit): the block of the scan, then
`num_intervals_without_scan++`. -/
def run_server_pass (K : Int) (num_intervals_without_scan : Int) : Int :=
  (run_server_scan K num_intervals_without_scan).2 + 1

/-- The value of `num_intervals_without_scan` at the top of the pass number
`i` of the loop of run_server (the first pass is number 0), while the loop
runs. -/
def run_server_counter (K : Int) : Nat → Int
  | 0 => 0
  | i + 1 => run_server_pass K (run_server_counter K i)

/-- What a call of send_and_process_stream_request shows of its descriptors
once it has returned: the return value and whether audio_out_fd and
file_dest_fd have been closed. -/
def transfer_closed : Option (Outcome Transfer) → Option (Int × Bool × Bool)
  | some (.ret v t) => some (v, t.audio.closed, t.file.closed)
  | _ => none

/-- A path-joining function for the examples: the second path alone when the
first is empty, otherwise the two with a '/' between them. -/
def slash_join (path1 path2 : List Char) : List Char :=
  if path1 = [] then path2 else path1 ++ '/' :: path2

/-- What a call of list_request shows once it has returned: the return value
and the client library. -/
def list_outcome : Option (Outcome (ClientLibrary × Client)) → Option (Int × ClientLibrary)
  | some (.ret v (library, _)) => some (v, library)
  | _ => none

/-! ## Theorems -/

theorem toDigits_length_lt (i : Nat) (h : i < 1000000000) :
    (Nat.toDigits 10 i).length < 10 := by
  have := Nat.toDigitsCore_length 10 (by decide) (i + 1) i 9 (by simpa using h) (by decide)
  simp only [Nat.toDigits]
  omega

theorem write_precisely_open (inp : List Seg) (out bs : List Char) :
    write_precisely ⟨inp, out, none⟩ bs = (true, ⟨inp, out ++ bs, none⟩) := rfl

theorem list_request_response_loop_open (library : Library) (inp : List Seg) :
    ∀ (k : Nat) (out : List Char), k ≤ library.files.length → k ≤ 1000000000 →
      list_request_response_loop library k ⟨inp, out, none⟩ =
        some ⟨inp, out ++ (((List.range k).reverse).map
          (fun i => Nat.toDigits 10 i ++ [':'] ++ library.files.getD i [] ++
            ['\r', '\n'])).flatten, none⟩ := by
  intro k
  induction k with
  | zero => intro out _ _; simp [list_request_response_loop]
  | succ i ih =>
    intro out hk hN
    have hi : i < library.files.length := by omega
    have hd : sprintf_d i = some (Nat.toDigits 10 i) := by
      simp [sprintf_d, toDigits_length_lt i (by omega)]
    simp only [list_request_response_loop, List.getElem?_eq_getElem hi, hd,
      write_precisely_open]
    rw [ih _ (by omega) (by omega)]
    simp [List.range_succ, List.getD_eq_getElem?_getD, List.getElem?_eq_getElem hi]

/-- C2 (amended): for a library of N files with N at most 10^9 (the indices
whose decimal form and NUL fit the 10 bytes of `file_index_str`) and a socket
that takes every write, list_request_response appends to the socket exactly
the concatenation, for i = N-1 down to 0, of decimal(i), ":", files[i], CR LF
(nothing when N = 0), and returns 0. -/
theorem list_request_response_writes (library : Library) (inp : List Seg)
    (out : List Char) (hN : library.num_files ≤ 1000000000) :
    list_request_response ⟨inp, out, none⟩ library =
      .ret 0 ⟨inp, out ++ list_wire library.files, none⟩ := by
  simp only [list_request_response, Library.num_files] at *
  rw [list_request_response_loop_open library inp _ out (le_refl _) hN]
  rfl

theorem list_request_response_writes_witness :
    list_request_response ⟨[], [], none⟩ ⟨['l', 'i', 'b'], [['a', '.', 'w', 'a', 'v'],
        ['s', 'u', 'b', '/', 'b', '.', 'w', 'a', 'v']]⟩ =
      .ret 0 ⟨[], "1:sub/b.wav\r\n0:a.wav\r\n".toList, none⟩ ∧
    list_request_response ⟨[], [], none⟩ ⟨['l', 'i', 'b'], []⟩ = .ret 0 ⟨[], [], none⟩ :=
  ⟨list_request_response_writes ⟨['l', 'i', 'b'], [['a', '.', 'w', 'a', 'v'],
      ['s', 'u', 'b', '/', 'b', '.', 'w', 'a', 'v']]⟩ [] [] (by decide),
   list_request_response_writes ⟨['l', 'i', 'b'], []⟩ [] [] (by decide)⟩

theorem list_request_response_loop_overflow (library : Library) (n : Nat) (s : Sock)
    (hn : n < library.files.length) (hd : sprintf_d n = none) :
    list_request_response_loop library (n + 1) s = none := by
  rw [list_request_response_loop]
  simp only [List.getElem?_eq_getElem hn, hd]

theorem list_request_response_overflow (library : Library) (n : Nat) (s : Sock)
    (hn : library.files.length = n + 1) (hd : sprintf_d n = none) :
    list_request_response s library = .undefined := by
  rw [list_request_response, Library.num_files, hn,
    list_request_response_loop_overflow library n s (by omega) hd]

/-- C2, as stated, fails: for a library of 10^9 + 1 files the first index
written is 1000000000, whose ten digits and NUL do not fit the 10 bytes of
`file_index_str`: `sprintf` writes past the end of the array and the behaviour
of list_request_response is undefined. And on a socket that takes 3 more
bytes and then fails every write, the library ["a.wav"] gets "0:a" written
and list_request_response returns 0 all the same. -/
theorem list_request_response_index_overflows :
    list_request_response ⟨[], [], none⟩
        ⟨"lib".toList, List.replicate 1000000001 "a.wav".toList⟩ = .undefined ∧
      list_request_response ⟨[], [], some 3⟩ ⟨"lib".toList, ["a.wav".toList]⟩ =
        .ret 0 ⟨[], "0:a".toList, some 0⟩ :=
  ⟨list_request_response_overflow _ 1000000000 _ (List.length_replicate _ _) (by decide),
    by decide⟩

/-! ### Decimal numerals -/

theorem digitChar_isDigit (d : Nat) (h : d < 10) :
    (Nat.digitChar d).isDigit = true ∧ (Nat.digitChar d).toNat - 48 = d := by
  interval_cases d <;> decide

theorem toDigitsCore_isDigit : ∀ (fuel n : Nat) (ds : List Char),
    (∀ c ∈ ds, c.isDigit = true) → ∀ c ∈ Nat.toDigitsCore 10 fuel n ds, c.isDigit = true := by
  intro fuel
  induction fuel with
  | zero => intro n ds h; simpa [Nat.toDigitsCore] using h
  | succ f ih =>
    intro n ds h
    have hd := (digitChar_isDigit (n % 10) (Nat.mod_lt _ (by decide))).1
    simp only [Nat.toDigitsCore]
    split
    · intro c hc
      rcases List.mem_cons.1 hc with rfl | hc
      · exact hd
      · exact h c hc
    · apply ih
      intro c hc
      rcases List.mem_cons.1 hc with rfl | hc
      · exact hd
      · exact h c hc

theorem toDigitsCore_ne_nil (fuel n : Nat) (ds : List Char) :
    Nat.toDigitsCore 10 (fuel + 1) n ds ≠ [] := by
  induction fuel generalizing n ds with
  | zero => simp [Nat.toDigitsCore]
  | succ f ih =>
    rw [Nat.toDigitsCore]
    split
    · simp
    · exact ih _ _

theorem strtol_digits_toDigitsCore : ∀ (fuel n : Nat) (ds : List Char), n < fuel →
    strtol_digits (Nat.toDigitsCore 10 fuel n ds) 0 = strtol_digits ds n := by
  intro fuel
  induction fuel with
  | zero => intro n ds h; omega
  | succ f ih =>
    intro n ds h
    have hd := digitChar_isDigit (n % 10) (Nat.mod_lt _ (by decide))
    simp only [Nat.toDigitsCore]
    split
    · rename_i h0
      have hn : n % 10 = n := by omega
      rw [hn] at hd
      simp only [strtol_digits, hn, hd.1, hd.2, if_true, Nat.zero_mul, Nat.zero_add]
    · rename_i h0
      rw [ih (n / 10) _ (by omega)]
      simp only [strtol_digits, hd.1, hd.2, if_true]
      congr 1
      omega

theorem toDigits_isDigit (n : Nat) : ∀ c ∈ Nat.toDigits 10 n, c.isDigit = true :=
  toDigitsCore_isDigit (n + 1) n [] (by simp)

theorem toDigits_ne_nil (n : Nat) : Nat.toDigits 10 n ≠ [] :=
  toDigitsCore_ne_nil n n []

theorem strtol_digits_toDigits (n : Nat) : strtol_digits (Nat.toDigits 10 n) 0 = n := by
  simpa [Nat.toDigits, strtol_digits] using strtol_digits_toDigitsCore (n + 1) n [] (by omega)

theorem isDigit_facts (c : Char) (h : c.isDigit = true) :
    c ≠ ':' ∧ c ≠ '\x00' ∧ c ≠ '\n' ∧ c ≠ '\r' ∧ c ≠ '-' ∧ c ≠ '+' ∧ isspace c = false := by
  refine ⟨?_, ?_, ?_, ?_, ?_, ?_, ?_⟩ <;>
    first
      | (rintro rfl; revert h; decide)
      | (simp only [isspace, Bool.or_eq_false_iff, beq_eq_false_iff_ne]
         refine ⟨⟨⟨⟨⟨?_, ?_⟩, ?_⟩, ?_⟩, ?_⟩, ?_⟩ <;> (rintro rfl; revert h; decide))

theorem strtol_toDigits (n : Nat) (h : n < 2147483648) :
    int_of_long (strtol (Nat.toDigits 10 n)) = n := by
  have hne := toDigits_ne_nil n
  have hdig := toDigits_isDigit n
  have hval := strtol_digits_toDigits n
  cases hl : Nat.toDigits 10 n with
  | nil => exact absurd hl hne
  | cons c cs =>
    rw [hl] at hdig hval
    have hc := isDigit_facts c (hdig c (List.mem_cons_self _ _))
    have hdrop : List.dropWhile isspace (c :: cs) = c :: cs := by
      simp [List.dropWhile, hc.2.2.2.2.2.2]
    unfold strtol
    rw [hdrop]
    split
    · rename_i heq; cases heq; exact absurd rfl hc.2.2.2.2.1
    · rename_i heq; cases heq; exact absurd rfl hc.2.2.2.2.2.1
    · rename_i t _ _
      rw [hval]
      simp only [int_of_long]
      omega

/-! ### Lines of a list response -/

theorem cstr_of_not_mem (l : List Char) (h : '\x00' ∉ l) : cstr l = l := by
  unfold cstr
  rw [List.takeWhile_eq_self_iff]
  intro c hc
  simp only [bne_iff_ne, ne_eq]
  rintro rfl
  exact h hc

theorem strtok_token (tok rest : List Char) (hne : tok ≠ [])
    (htok : ∀ c ∈ tok, c ≠ ':') :
    strtok (tok ++ ':' :: rest) = some (tok, rest) := by
  cases tok with
  | nil => exact absurd rfl hne
  | cons a t =>
    have ha : a ≠ ':' := htok a (List.mem_cons_self _ _)
    have hp : ∀ c ∈ a :: t, (fun c => c != ':') c = true := by
      intro c hc
      simpa using htok c hc
    have h1 : List.dropWhile (fun c => c == ':') (a :: t ++ ':' :: rest) = a :: t ++ ':' :: rest := by
      rw [List.cons_append, List.dropWhile_cons_of_neg (by simpa using ha)]
    unfold strtok
    simp only [h1]
    rw [List.takeWhile_append_of_pos hp, List.dropWhile_append_of_pos hp]
    simp

theorem strtok_last (tok : List Char) (hne : tok ≠ []) (htok : ∀ c ∈ tok, c ≠ ':') :
    strtok tok = some (tok, []) := by
  cases tok with
  | nil => exact absurd rfl hne
  | cons a t =>
    have ha : a ≠ ':' := htok a (List.mem_cons_self _ _)
    have hp : ∀ c ∈ a :: t, (fun c => c != ':') c = true := by
      intro c hc
      simpa using htok c hc
    have h1 : List.dropWhile (fun c => c == ':') (a :: t) = a :: t :=
      List.dropWhile_cons_of_neg (by simpa using ha)
    have h2 : List.takeWhile (fun c => c != ':') (a :: t) = a :: t :=
      List.takeWhile_eq_self_iff.2 hp
    have h3 : List.dropWhile (fun c => c != ':') (a :: t) = [] :=
      List.dropWhile_eq_nil_iff.2 hp
    unfold strtok
    simp only [h1, h2, h3]
    simp

/-- The parse of a well-formed line gives back its index and its path. -/
theorem parse_wire_line (i : Nat) (p : List Char) (hi : i < 2147483648)
    (hne : p ≠ []) (hcolon : ':' ∉ p) (hnul : '\x00' ∉ p) :
    parse_filename (cstr (Nat.toDigits 10 i ++ [':'] ++ p)) = some ((i : Int), p) := by
  have hdig := toDigits_isDigit i
  have hnul2 : '\x00' ∉ Nat.toDigits 10 i ++ [':'] ++ p := by
    simp only [List.mem_append, List.mem_singleton, not_or]
    refine ⟨⟨fun h => (isDigit_facts _ (hdig _ h)).2.1 rfl, by decide⟩, hnul⟩
  rw [cstr_of_not_mem _ hnul2]
  have h1 : strtok (Nat.toDigits 10 i ++ [':'] ++ p) = some (Nat.toDigits 10 i, p) := by
    rw [List.append_assoc]
    exact strtok_token _ _ (toDigits_ne_nil i) (fun c hc => (isDigit_facts c (hdig c hc)).1)
  have h2 : strtok p = some (p, []) :=
    strtok_last p hne (fun c hc h => hcolon (h ▸ hc))
  simp only [parse_filename, h1, h2, strtol_toDigits i hi]

theorem find_network_newline_line (l t : List Char) (h : '\n' ∉ l) :
    find_network_newline (l ++ '\r' :: '\n' :: t) = some (l, t) := by
  induction l with
  | nil => simp [find_network_newline]
  | cons a l ih =>
    have hl : '\n' ∉ l := fun hm => h (List.mem_cons_of_mem _ hm)
    cases l with
    | nil =>
      simp only [List.cons_append, List.nil_append, find_network_newline]
      simp [find_network_newline]
    | cons b l' =>
      have hb : b ≠ '\n' := fun hb => h (by simp [hb])
      have ih' := ih hl
      simp only [List.cons_append] at ih' ⊢
      rw [find_network_newline]
      simp [hb, ih']

theorem find_network_newline_append (a b l r : List Char)
    (h : find_network_newline a = some (l, r)) :
    find_network_newline (a ++ b) = some (l, r ++ b) := by
  induction a generalizing l r with
  | nil => simp [find_network_newline] at h
  | cons x a ih =>
    cases a with
    | nil => simp [find_network_newline] at h
    | cons y a' =>
      rw [find_network_newline] at h
      simp only [List.cons_append]
      rw [find_network_newline]
      split at h
      · rename_i hc
        simp only [Option.some.injEq, Prod.mk.injEq] at h
        rw [if_pos hc, ← h.1, ← h.2]
      · rename_i hc
        rw [if_neg hc]
        cases hf : find_network_newline (y :: a') with
        | none => simp [hf] at h
        | some lr =>
          obtain ⟨l1, r1⟩ := lr
          simp only [hf, Option.some.injEq, Prod.mk.injEq] at h
          have := ih l1 r1 hf
          simp only [List.cons_append] at this
          rw [this, ← h.1, ← h.2]

theorem read_data (segs : List (List Char)) (count : Nat)
    (h : segs.flatten.length < count) (hmax : count ≤ 9223372036854775807) :
    ∃ (bs : List Char) (segs' : List (List Char)),
      read count (segs.map Seg.bytes) = (.data bs, segs'.map Seg.bytes) ∧
      bs ++ segs'.flatten = segs.flatten ∧ segs'.length ≤ segs.length - 1 := by
  have hm : ¬ 9223372036854775807 < count := by omega
  induction segs with
  | nil => exact ⟨[], [], by simp [read, hm]⟩
  | cons s rest ih =>
    simp only [List.flatten_cons, List.length_append] at h
    by_cases hs : s = []
    · obtain ⟨bs, segs', h1, h2, h3⟩ := ih (by omega)
      refine ⟨bs, segs', ?_, ?_, ?_⟩
      · simp [read, hs, h1]
      · simp [hs, h2]
      · simp only [List.length_cons]; omega
    · refine ⟨s, rest, ?_, by simp, by simp⟩
      have hc : count ≠ 0 := by omega
      have ht : s.take count = s := List.take_of_length_le (by omega)
      have hd : s.drop count = [] := List.drop_eq_nil_of_le (by omega)
      simp [read, hs, hc, hm, ht, hd]

/-- While the buffered and the unread bytes together stay below the buffer
size, get_next_filename returns the first line of the stream, whatever the
reads deliver, and leaves the bytes behind that line buffered or unread. -/
theorem get_next_filename_line (R B : Nat) (out : List Char) (room : Option Nat)
    (l r : List Char) (hRmax : R ≤ 9223372036854775807) :
    ∀ (n : Nat) (segs : List (List Char)) (buf : List Char) (fuel : Nat),
      segs.length = n →
      buf.length + segs.flatten.length < R →
      find_network_newline (buf ++ segs.flatten) = some (l, r) →
      segs.length < fuel →
      ∃ (segs1 : List (List Char)) (buf1 : List Char),
        get_next_filename R B fuel ⟨⟨segs.map Seg.bytes, out, room⟩, buf⟩ =
          some (get_next_filename_found ⟨⟨segs1.map Seg.bytes, out, room⟩, buf⟩ l buf1) ∧
        buf1 ++ segs1.flatten = r ∧ segs1.length ≤ segs.length := by
  intro n
  induction n using Nat.strong_induction_on with
  | _ n ih =>
    intro segs buf fuel hn hR hfind hfuel
    cases hb : find_network_newline buf with
    | some lr =>
      obtain ⟨l0, r0⟩ := lr
      have := find_network_newline_append buf segs.flatten l0 r0 hb
      rw [hfind] at this
      simp only [Option.some.injEq, Prod.mk.injEq] at this
      refine ⟨segs, r0, ?_, this.2.symm, le_refl _⟩
      cases fuel with
      | zero => simp only [get_next_filename, hb, this.1]
      | succ fuel' => simp only [get_next_filename, hb, this.1]
    | none =>
      cases fuel with
      | zero => omega
      | succ fuel' =>
        obtain ⟨bs, segs', hread, hcat, hlen⟩ :=
          read_data segs (R - buf.length) (by omega) (by omega)
        have hne : segs ≠ [] := by
          rintro rfl
          simp [hb] at hfind
        have hpos : 0 < segs.length := List.length_pos.2 hne
        have hbs : bs.length + segs'.flatten.length = segs.flatten.length := by
          rw [← hcat, List.length_append]
        obtain ⟨segs1, buf1, h1, h2, h3⟩ :=
          ih segs'.length (by omega) segs' (buf ++ bs) fuel' rfl
            (by rw [List.length_append]; omega)
            (by rw [List.append_assoc, hcat]; exact hfind)
            (by omega)
        refine ⟨segs1, buf1, ?_, h2, by omega⟩
        have hR' : ¬ (buf ++ bs).length = R := by
          rw [List.length_append]; omega
        simp only [get_next_filename, hb, hread, hR', if_false]
        rw [h1]
        rfl

theorem find_network_newline_wire (l : Nat × List Char) (rest : List Char)
    (hp : PathOk l.2) :
    find_network_newline (wire_line l ++ rest) =
      some (Nat.toDigits 10 l.1 ++ [':'] ++ l.2, rest) := by
  have hX : '\n' ∉ Nat.toDigits 10 l.1 ++ [':'] ++ l.2 := by
    simp only [List.mem_append, List.mem_singleton, not_or]
    exact ⟨⟨fun h => (isDigit_facts _ (toDigits_isDigit _ _ h)).2.2.1 rfl, by decide⟩, hp.2.2.1⟩
  have := find_network_newline_line _ rest hX
  simpa [wire_line] using this

theorem pending_map_bytes (segs : List (List Char)) :
    pending (segs.map Seg.bytes) = segs.flatten := by
  induction segs with
  | nil => rfl
  | cons s rest ih => simp [pending, ih]

theorem read_zero (inp : List Seg) : ∃ inp1, read 0 inp = (.data [], inp1) := by
  induction inp with
  | nil => exact ⟨[], rfl⟩
  | cons s rest ih =>
    cases s with
    | fail => exact ⟨Seg.fail :: rest, by simp [read]⟩
    | bytes bs =>
      by_cases hbs : bs = []
      · obtain ⟨inp1, h⟩ := ih
        exact ⟨inp1, by simp [read, hbs, h]⟩
      · exact ⟨Seg.bytes bs :: rest, by simp [read, hbs]⟩

theorem find_network_newline_no_cr (buf : List Char) (h : '\r' ∉ buf) :
    find_network_newline buf = none := by
  induction buf with
  | nil => rfl
  | cons a t ih =>
    cases t with
    | nil => rfl
    | cons b t' =>
      have ha : a ≠ '\r' := fun e => h (by simp [e])
      have := ih (fun hm => h (List.mem_cons_of_mem _ hm))
      rw [find_network_newline]
      simp [ha, this]

/-- Once the buffer of get_next_filename holds R bytes without a carriage
return, the loop never ends: every read asks for 0 bytes and the shift keeps
the buffer full. -/
theorem get_next_filename_full (R B : Nat) :
    ∀ (fuel : Nat) (sock : Sock) (buf : List Char), buf.length = R → '\r' ∉ buf →
      get_next_filename R B fuel ⟨sock, buf⟩ = none := by
  intro fuel
  induction fuel with
  | zero =>
    intro sock buf _ hcr
    simp [get_next_filename, find_network_newline_no_cr buf hcr]
  | succ f ih =>
    intro sock buf hlen hcr
    obtain ⟨inp1, hread⟩ := read_zero sock.inp
    have hmem : '\r' ∉ buf.drop B ++ buf.drop (R - B) := by
      simp only [List.mem_append, not_or]
      exact ⟨fun h => hcr (List.mem_of_mem_drop h), fun h => hcr (List.mem_of_mem_drop h)⟩
    have hlen2 : (buf.drop B ++ buf.drop (R - B)).length = R := by
      simp only [List.length_append, List.length_drop]
      omega
    simp only [get_next_filename, find_network_newline_no_cr buf hcr, hlen, Nat.sub_self,
      hread, List.append_nil, if_true]
    exact ih _ _ hlen2 hmem

/-- With nothing to read and an empty buffer get_next_filename never
returns. -/
theorem get_next_filename_silent (R B : Nat) (hRmax : R ≤ 9223372036854775807) :
    ∀ (fuel : Nat) (out : List Char) (room : Option Nat),
      get_next_filename R B fuel ⟨⟨[], out, room⟩, []⟩ = none := by
  have hm : ¬ 9223372036854775807 < R - 0 := by omega
  intro fuel
  induction fuel with
  | zero => intro out room; rfl
  | succ f ih =>
    intro out room
    simp only [get_next_filename, find_network_newline, read, hm, if_false, List.append_nil,
      List.length_nil, List.drop_nil, ite_self]
    exact ih out room

/-! ### The binary fields of the stream exchange -/

theorem toNat_ofNat_byte (n : Nat) (h : n < 256) : (Char.ofNat n).toNat % 256 = n := by
  have hv : n.isValidChar := Or.inl (by omega)
  have : (Char.ofNat n).toNat = n := by
    simp [Char.ofNat, hv, Char.toNat, Char.ofNatAux, UInt32.toNat]
  rw [this]
  omega

theorem bytes_of_word (x : Nat) (hx : x < 4294967296) :
    ∃ b0 b1 b2 b3 : Nat, b0 < 256 ∧ b1 < 256 ∧ b2 < 256 ∧ b3 < 256 ∧
      x % 256 = b0 ∧ x / 256 % 256 = b1 ∧ x / 65536 % 256 = b2 ∧ x / 16777216 % 256 = b3 ∧
      x = b0 + 256 * b1 + 65536 * b2 + 16777216 * b3 := by
  refine ⟨x % 256, x / 256 % 256, x / 65536 % 256, x / 16777216 % 256, ?_, ?_, ?_, ?_,
    rfl, rfl, rfl, rfl, ?_⟩ <;> omega

theorem word_of_bytes (b0 b1 b2 b3 : Nat) (h0 : b0 < 256) (h1 : b1 < 256) (h2 : b2 < 256)
    (h3 : b3 < 256) :
    (b0 + 256 * b1 + 65536 * b2 + 16777216 * b3) % 256 = b0 ∧
    (b0 + 256 * b1 + 65536 * b2 + 16777216 * b3) / 256 % 256 = b1 ∧
    (b0 + 256 * b1 + 65536 * b2 + 16777216 * b3) / 65536 % 256 = b2 ∧
    (b0 + 256 * b1 + 65536 * b2 + 16777216 * b3) / 16777216 % 256 = b3 := by
  refine ⟨?_, ?_, ?_, ?_⟩ <;> omega

theorem bswap32_bytes (b0 b1 b2 b3 : Nat) (h0 : b0 < 256) (h1 : b1 < 256) (h2 : b2 < 256)
    (h3 : b3 < 256) :
    bswap32 (b0 + 256 * b1 + 65536 * b2 + 16777216 * b3) =
      b3 + 256 * b2 + 65536 * b1 + 16777216 * b0 := by
  obtain ⟨e0, e1, e2, e3⟩ := word_of_bytes b0 b1 b2 b3 h0 h1 h2 h3
  simp only [bswap32, e0, e1, e2, e3]
  omega

theorem store32_htonl (le : Bool) (x : Nat) (hx : x < 4294967296) :
    store32 le (htonl le x) = store32 false x := by
  cases le
  · rfl
  · obtain ⟨b0, b1, b2, b3, h0, h1, h2, h3, e0, e1, e2, e3, hxe⟩ := bytes_of_word x hx
    have hsw := bswap32_bytes b0 b1 b2 b3 h0 h1 h2 h3
    rw [← hxe] at hsw
    obtain ⟨f0, f1, f2, f3⟩ := word_of_bytes b3 b2 b1 b0 h3 h2 h1 h0
    simp only [store32, htonl, if_true, Bool.false_eq_true, if_false, hsw, f0, f1, f2, f3,
      e0, e1, e2, e3]

theorem ntohl_load32 (le : Bool) (x : Nat) (hx : x < 4294967296) (tail : List Char) :
    (load32 le (store32 false x ++ tail)).map (ntohl le) = some x := by
  obtain ⟨b0, b1, b2, b3, h0, h1, h2, h3, e0, e1, e2, e3, hxe⟩ := bytes_of_word x hx
  have t0 := toNat_ofNat_byte b0 h0
  have t1 := toNat_ofNat_byte b1 h1
  have t2 := toNat_ofNat_byte b2 h2
  have t3 := toNat_ofNat_byte b3 h3
  cases le
  · simp only [store32, load32, ntohl, List.cons_append, List.nil_append, Bool.false_eq_true,
      if_false, Option.map_some', e0, e1, e2, e3, t0, t1, t2, t3, Option.some.injEq]
    omega
  · simp only [store32, load32, ntohl, List.cons_append, List.nil_append,
      Bool.false_eq_true, if_false, if_true, Option.map_some', e0, e1, e2, e3, t0, t1, t2, t3,
      Option.some.injEq]
    have := bswap32_bytes b3 b2 b1 b0 h3 h2 h1 h0
    rw [this]
    omega

theorem load_file_size_eq (L : Nat) (hL : L < 4294967296) :
    _load_file_size_into_buffer L = store32 false L := by
  have h255 : (0xFF : Nat) = 2 ^ 8 - 1 := by decide
  simp only [_load_file_size_into_buffer, store32, Bool.false_eq_true, if_false,
    Nat.mod_eq_of_lt hL, h255, Nat.and_pow_two_sub_one_eq_mod, Nat.shiftRight_eq_div_pow]

theorem read_precisely_data : ∀ (segs : List (List Char)) (n : Nat),
    n ≤ segs.flatten.length →
    ∃ segs1 : List (List Char),
      read_precisely n (segs.map Seg.bytes) = (some (segs.flatten.take n), segs1.map Seg.bytes) ∧
      segs1.flatten = segs.flatten.drop n := by
  intro segs
  induction segs with
  | nil =>
    intro n hn
    have : n = 0 := by simpa using hn
    subst this
    exact ⟨[], by simp [read_precisely]⟩
  | cons bs rest ih =>
    intro n hn
    simp only [List.flatten_cons, List.length_append] at hn
    by_cases h0 : n = 0
    · subst h0
      exact ⟨bs :: rest, by simp [read_precisely]⟩
    · by_cases hle : n ≤ bs.length
      · by_cases hd : bs.drop n = []
        · refine ⟨rest, ?_, ?_⟩
          · simp [read_precisely, h0, hle, hd, List.take_append_of_le_length hle]
          · simp [List.drop_append_of_le_length hle, hd]
        · refine ⟨bs.drop n :: rest, ?_, ?_⟩
          · simp [read_precisely, h0, hle, hd, List.take_append_of_le_length hle]
          · simp [List.drop_append_of_le_length hle]
      · obtain ⟨segs1, h1, h2⟩ := ih (n - bs.length) (by omega)
        refine ⟨segs1, ?_, ?_⟩
        · have hn' : n = bs.length + (n - bs.length) := by omega
          simp only [List.map_cons, read_precisely, h0, hle, if_false, h1, List.flatten_cons]
          conv_rhs => rw [hn', List.take_append]
        · have hn' : n = bs.length + (n - bs.length) := by omega
          rw [h2, List.flatten_cons]
          conv_rhs => rw [hn', List.drop_append]

theorem read_file_index_buffered (le : Bool) (x : Nat) (hx : x < 4294967296)
    (client : Sock) (junk : List Char) :
    read_file_index le client (store32 false x ++ junk) 4 = .index x client := by
  have hl := ntohl_load32 le x hx junk
  cases hload : load32 le (store32 false x ++ junk) with
  | none => rw [hload] at hl; simp at hl
  | some v =>
    simp only [hload, Option.map_some', Option.some.injEq] at hl
    simp only [read_file_index, hload, hl, lt_self_iff_false, if_false]

theorem read_file_index_split (le : Bool) (x k : Nat) (hx : x < 4294967296) (hlt : k < 4)
    (junk tail out : List Char) (room : Option Nat) (segs : List (List Char))
    (hsegs : segs.flatten = (store32 false x).drop k ++ tail) :
    ∃ segs1 : List (List Char),
      read_file_index le ⟨segs.map Seg.bytes, out, room⟩ ((store32 false x).take k ++ junk) k =
        .index x ⟨segs1.map Seg.bytes, out, room⟩ ∧ segs1.flatten = tail := by
  have hlen : (store32 false x).length = 4 := rfl
  obtain ⟨segs1, hrp, hflat⟩ := read_precisely_data segs (4 - k)
    (by rw [hsegs, List.length_append, List.length_drop, hlen]; omega)
  have hgot : segs.flatten.take (4 - k) = (store32 false x).drop k := by
    rw [hsegs, List.take_append_of_le_length (by rw [List.length_drop, hlen])]
    exact List.take_of_length_le (by rw [List.length_drop, hlen])
  have hleft : segs.flatten.drop (4 - k) = tail := by
    rw [hsegs]
    have : 4 - k = ((store32 false x).drop k).length + 0 := by
      rw [List.length_drop, hlen]; omega
    rw [this, List.drop_append]
    rfl
  have hbuf : (List.take k (store32 false x) ++ junk).take k ++ (store32 false x).drop k =
      store32 false x ++ [] := by
    rw [List.take_append_of_le_length (by rw [List.length_take, hlen]; omega),
      List.take_take, Nat.min_self, List.take_append_drop, List.append_nil]
  have hl := ntohl_load32 le x hx []
  cases hload : load32 le (store32 false x ++ []) with
  | none => rw [hload] at hl; simp at hl
  | some v =>
    simp only [hload, Option.map_some', Option.some.injEq] at hl
    refine ⟨segs1, ?_, by rw [hflat, hleft]⟩
    simp only [read_file_index, hlt, if_true, hrp, hgot, hbuf, hload, hl]

/-- C7: for every 32-bit file index x and every k in 0..4, on hosts of either
byte order: when the first k bytes of the client's encoding of x (the bytes of
htonl(x), as send_and_process_stream_request writes them) stand in the request
buffer behind the STREAM line and the other 4 - k bytes come from the socket,
in any segments, step 1 of stream_request_response, called with
num_pr_bytes = k, decodes file_index = x, takes exactly these bytes from the
socket, and stream_request_response goes on with the file at index x. -/
theorem stream_request_response_decodes_index (lec les : Bool) (x k : Nat)
    (junk tail out : List Char) (room : Option Nat) (segs : List (List Char))
    (hx : x < 4294967296) (hk : k ≤ 4)
    (hsegs : segs.flatten = (store32 lec (htonl lec x)).drop k ++ tail) :
    ∃ s : Sock,
      read_file_index les ⟨segs.map Seg.bytes, out, room⟩
          ((store32 lec (htonl lec x)).take k ++ junk) k = .index x s ∧
      pending s.inp = tail ∧ s.out = out ∧ s.room = room ∧
      ∀ (C : Nat) (join : List Char → List Char → List Char)
        (fopen : List Char → Option (List Char)) (library : Library),
        stream_request_response les C join fopen ⟨segs.map Seg.bytes, out, room⟩ library
            ((store32 lec (htonl lec x)).take k ++ junk) k =
          stream_request_response_file C join fopen library x s := by
  rw [store32_htonl lec x hx] at hsegs ⊢
  have hlen : (store32 false x).length = 4 := rfl
  by_cases hk4 : k = 4
  · subst hk4
    have htake : (store32 false x).take 4 = store32 false x :=
      List.take_of_length_le (by simp [hlen])
    have hri := read_file_index_buffered les x hx ⟨segs.map Seg.bytes, out, room⟩ junk
    rw [htake]
    refine ⟨⟨segs.map Seg.bytes, out, room⟩, hri, ?_, rfl, rfl, ?_⟩
    · rw [pending_map_bytes, hsegs]
      simp [List.drop_eq_nil_of_le, hlen]
    · intro C join fopen library
      simp only [stream_request_response, hri]
  · obtain ⟨segs1, hri, hflat⟩ :=
      read_file_index_split les x k hx (by omega) junk tail out room segs hsegs
    refine ⟨⟨segs1.map Seg.bytes, out, room⟩, hri, ?_, rfl, rfl, ?_⟩
    · rw [pending_map_bytes, hflat]
    · intro C join fopen library
      simp only [stream_request_response, hri]

theorem stream_request_response_decodes_index_witness :
    ∃ s : Sock,
      read_file_index true ⟨[[Char.ofNat 1], [Char.ofNat 2, 'L']].map Seg.bytes, [], none⟩
          ((store32 false (htonl false 258)).take 2 ++ []) 2 = .index 258 s ∧
      pending s.inp = ['L'] ∧ s.out = [] ∧ s.room = none ∧
      ∀ (C : Nat) (join : List Char → List Char → List Char)
        (fopen : List Char → Option (List Char)) (library : Library),
        stream_request_response true C join fopen
            ⟨[[Char.ofNat 1], [Char.ofNat 2, 'L']].map Seg.bytes, [], none⟩ library
            ((store32 false (htonl false 258)).take 2 ++ []) 2 =
          stream_request_response_file C join fopen library 258 s :=
  stream_request_response_decodes_index false true 258 2 [] ['L'] [] none
    [[Char.ofNat 1], [Char.ofNat 2, 'L']] (by decide) (by decide) (by decide)

theorem send_file_chunks_open (C : Nat) (hC : 0 < C) (inp : List Seg) :
    ∀ (fuel : Nat) (rest out : List Char), rest.length < fuel →
      send_file_chunks C fuel rest ⟨inp, out, none⟩ = ⟨inp, out ++ rest, none⟩ := by
  intro fuel
  induction fuel with
  | zero => intro rest out h; omega
  | succ f ih =>
    intro rest out h
    by_cases h0 : rest = []
    · subst h0; simp [send_file_chunks]
    · have hpos : 0 < rest.length := List.length_pos.2 h0
      have hlt : 0 < (rest.take C).length := by rw [List.length_take]; omega
      by_cases hshort : (rest.take C).length < C
      · have hall : rest.take C = rest := by
          rw [List.length_take] at hshort
          exact List.take_of_length_le (by omega)
        rw [send_file_chunks, if_pos hlt, if_pos hshort, hall, write_precisely_open]
      · have hfull : (rest.take C).length = C := by
          rw [List.length_take] at hshort ⊢; omega
        rw [send_file_chunks, if_pos hlt, if_neg hshort, write_precisely_open]
        rw [ih _ _ (by rw [List.length_drop]; rw [List.length_take] at hfull; omega),
          List.append_assoc, List.take_append_drop]

/-- C8: for every file of length L < 2^32 at a valid catalog index and every
chunk size STREAM_CHUNK_SIZE > 0, on a socket that takes every write,
stream_request_response returns 0 having written exactly the 4-byte
big-endian encoding of L followed by the L bytes of the file in order (4 + L
bytes), and the client's decoding of the header (ntohl of the four bytes read
as a uint32_t, on a host of either byte order) gives L. -/
theorem stream_request_response_writes (les lec : Bool) (C : Nat)
    (join : List Char → List Char → List Char) (fopen : List Char → Option (List Char))
    (library : Library) (inp inp1 : List Seg) (out post_req content : List Char)
    (k file_index : Nat)
    (hC : 0 < C)
    (hidx : read_file_index les ⟨inp, out, none⟩ post_req k = .index file_index ⟨inp1, out, none⟩)
    (hvalid : file_index < library.num_files)
    (hopen : fopen (join library.path (library.files.getD file_index [])) = some content)
    (hL : content.length < 4294967296) :
    stream_request_response les C join fopen ⟨inp, out, none⟩ library post_req k =
      .ret 0 ⟨inp1, out ++ (store32 false content.length ++ content), none⟩ ∧
    (store32 false content.length ++ content).length = 4 + content.length ∧
    (load32 lec (store32 false content.length)).map (ntohl lec) = some content.length := by
  have hget : library.files[file_index]? = some (library.files.getD file_index []) := by
    simp only [Library.num_files] at hvalid
    simp [List.getD_eq_getElem?_getD, List.getElem?_eq_getElem hvalid]
  refine ⟨?_, ?_, ?_⟩
  · simp only [stream_request_response, hidx, stream_request_response_file, hget, hopen,
      load_file_size_eq _ hL, write_precisely_open]
    rw [send_file_chunks_open C hC inp1 _ _ _ (by omega), List.append_assoc]
  · rw [List.length_append]; rfl
  · simpa using ntohl_load32 lec content.length hL []

theorem stream_request_response_writes_witness :
    stream_request_response true 4 (fun a b => a ++ '/' :: b)
        (fun p => if p = "lib/a.wav".toList then some "0123456789".toList else none)
        ⟨[], [], none⟩ ⟨"lib".toList, ["a.wav".toList]⟩
        [Char.ofNat 0, Char.ofNat 0, Char.ofNat 0, Char.ofNat 0] 4 =
      .ret 0 ⟨[], [] ++ (store32 false "0123456789".toList.length ++ "0123456789".toList),
        none⟩ ∧
    (store32 false "0123456789".toList.length ++ "0123456789".toList).length =
      4 + "0123456789".toList.length ∧
    (load32 false (store32 false "0123456789".toList.length)).map (ntohl false) =
      some "0123456789".toList.length :=
  stream_request_response_writes true false 4 (fun a b => a ++ '/' :: b)
    (fun p => if p = "lib/a.wav".toList then some "0123456789".toList else none)
    ⟨"lib".toList, ["a.wav".toList]⟩ [] [] []
    [Char.ofNat 0, Char.ofNat 0, Char.ofNat 0, Char.ofNat 0] "0123456789".toList 4 0
    (by decide) (by decide) (by decide) (by decide) (by decide)

/-! ### The connection loop and the index of a stream request -/

/-- An error of stream_request_response ends the connection. When a STREAM
request names an index inside [0, N) whose file cannot be opened,
stream_request_response returns -1 and handle_client returns -1 at once:
nothing is written, and the bytes behind the request (`tailbytes`, `more`),
which may hold further valid requests, are not served. -/
theorem handle_client_ends_on_stream_error (le lec : Bool) (Q C fuel : Nat)
    (join : List Char → List Char → List Char) (fopen : List Char → Option (List Char))
    (library : Library) (file_index : Nat) (tailbytes out : List Char) (more : List Seg)
    (room : Option Nat)
    (hvalid : file_index < library.num_files) (hx : file_index < 4294967296)
    (hopen : fopen (join library.path (library.files.getD file_index [])) = none)
    (hQ : (REQUEST_STREAM ++ END_OF_MESSAGE_TOKEN ++
      (store32 lec (htonl lec file_index) ++ tailbytes)).length ≤ Q)
    (hQmax : Q ≤ 9223372036854775807) :
    stream_request_response le C join fopen ⟨more, out, room⟩ library
        (store32 lec (htonl lec file_index) ++ tailbytes) 4 = .ret (-1) ⟨more, out, room⟩ ∧
    handle_client le Q C join fopen library (fuel + 1)
        ⟨Seg.bytes (REQUEST_STREAM ++ END_OF_MESSAGE_TOKEN ++
          (store32 lec (htonl lec file_index) ++ tailbytes)) :: more, out, room⟩ [] =
      some (.ret (-1) ⟨more, out, room⟩) := by
  rw [store32_htonl lec file_index hx] at hQ ⊢
  have hget : library.files[file_index]? = some (library.files.getD file_index []) := by
    simp only [Library.num_files] at hvalid
    simp [List.getD_eq_getElem?_getD, List.getElem?_eq_getElem hvalid]
  have hresp : ∀ s : Sock, stream_request_response le C join fopen s library
      (store32 false file_index ++ tailbytes) 4 = .ret (-1) s := by
    intro s
    simp only [stream_request_response, read_file_index_buffered le file_index hx,
      stream_request_response_file, hget, hopen]
  refine ⟨hresp _, ?_⟩
  have hX : REQUEST_STREAM ++ END_OF_MESSAGE_TOKEN ++ (store32 false file_index ++ tailbytes) =
      'S' :: (['T', 'R', 'E', 'A', 'M'] ++ '\r' :: '\n' ::
        (store32 false file_index ++ tailbytes)) := rfl
  have hlen : (REQUEST_STREAM ++ END_OF_MESSAGE_TOKEN ++
      (store32 false file_index ++ tailbytes)).length = 12 + tailbytes.length := by
    simp [REQUEST_STREAM, END_OF_MESSAGE_TOKEN, store32]
    omega
  rw [hlen] at hQ
  have hread : read (Q - ([] : List Char).length)
      (Seg.bytes (REQUEST_STREAM ++ END_OF_MESSAGE_TOKEN ++
        (store32 false file_index ++ tailbytes)) :: more) =
      (.data ('S' :: (['T', 'R', 'E', 'A', 'M'] ++ '\r' :: '\n' ::
        (store32 false file_index ++ tailbytes))), more) := by
    have hQ0 : Q ≠ 0 := by omega
    have ht : (REQUEST_STREAM ++ END_OF_MESSAGE_TOKEN ++
        (store32 false file_index ++ tailbytes)).take Q = _ :=
      List.take_of_length_le (by rw [hlen]; exact hQ)
    have hd : (REQUEST_STREAM ++ END_OF_MESSAGE_TOKEN ++
        (store32 false file_index ++ tailbytes)).drop Q = [] :=
      List.drop_eq_nil_of_le (by rw [hlen]; exact hQ)
    have hne : REQUEST_STREAM ++ END_OF_MESSAGE_TOKEN ++
        (store32 false file_index ++ tailbytes) ≠ [] := by rw [hX]; simp
    have hQm : ¬ 9223372036854775807 < Q := by omega
    rw [read, if_neg hne, List.length_nil, Nat.sub_zero, if_neg hQ0, if_neg hQm, ht, hd,
      if_pos rfl, hX]
  have hfind : find_network_newline ([] ++ 'S' :: (['T', 'R', 'E', 'A', 'M'] ++
      '\r' :: '\n' :: (store32 false file_index ++ tailbytes))) =
      some (REQUEST_STREAM, store32 false file_index ++ tailbytes) :=
    find_network_newline_line REQUEST_STREAM _ (by decide)
  have hmin : min 4 (store32 false file_index ++ tailbytes).length = 4 := by
    simp [store32]
  have hc1 : ¬ (REQUEST_STREAM = REQUEST_LIST) := by decide
  have hc2 : cstr REQUEST_STREAM = REQUEST_STREAM := by decide
  rw [handle_client]
  simp only [hread, hfind, hc1, hc2, if_false, if_true, hmin, hresp]
  simp

/-- C9 (the code at the failing input): with a catalog of one file, a STREAM
request for index 5 is not rejected with an error. stream_request_response
makes no range check and reads `library->files[5]` outside the array: its
behaviour is undefined, and so is that of handle_client, which does not go on
to the LIST request that follows on the same connection. -/
theorem stream_request_index_out_of_range :
    stream_request_response true 4 (fun a b => a ++ '/' :: b) (fun _ => some ['x'])
        ⟨[], [], none⟩ ⟨"lib".toList, ["a.wav".toList]⟩ (store32 true (htonl true 5)) 4 =
      .undefined ∧
    handle_client true 64 4 (fun a b => a ++ '/' :: b) (fun _ => some ['x'])
        ⟨"lib".toList, ["a.wav".toList]⟩ 5
        ⟨[Seg.bytes (REQUEST_STREAM ++ END_OF_MESSAGE_TOKEN ++ store32 true (htonl true 5)),
          Seg.bytes "LIST\r\n".toList], [], none⟩ [] =
      some .undefined := by
  constructor <;> decide

/-! ### A failed rescan -/

/-- C10 (amended): a failed rescan does not leave the previous catalog in the
library. scan_library frees it first, so what the library holds afterwards is
what the scan of the directory tree appended, whatever it held before; when
the root directory cannot be opened scan_library returns -1 and the library is
empty (num_files = 0). -/
theorem scan_library_discards_previous (exts : List (List Char))
    (join : List Char → List Char → List Char) (library : Library) :
    (scan_library exts join library none = (-1, ⟨library.path, []⟩) ∧
      (scan_library exts join library none).2.num_files = 0) ∧
    ∀ root : Option (List DirEntry),
      scan_library exts join library root = scan_library exts join ⟨library.path, []⟩ root := by
  refine ⟨⟨?_, ?_⟩, fun root => rfl⟩
  · simp [scan_library, _free_library, _depth_scan_library]
  · simp [scan_library, _free_library, _depth_scan_library, Library.num_files]

/-- C10, as stated, fails: a library that held ["old.wav"] holds nothing after
a rescan whose root cannot be opened, and holds only ["a.wav"] after a rescan
that fails on the subdirectory "sub". -/
theorem scan_library_failure_loses_catalog :
    scan_library [".wav".toList] (fun a b => if a = [] then b else a ++ '/' :: b)
        ⟨"lib".toList, ["old.wav".toList]⟩ none = (-1, ⟨"lib".toList, []⟩) ∧
    scan_library [".wav".toList] (fun a b => if a = [] then b else a ++ '/' :: b)
        ⟨"lib".toList, ["old.wav".toList]⟩
        (some [.reg "a.wav".toList, .dir "sub".toList none, .reg "b.wav".toList]) =
      (-1, ⟨"lib".toList, ["a.wav".toList]⟩) := by
  constructor <;> simp [scan_library, _free_library, _depth_scan_library, _depth_scan_entries,
    _is_file_extension_supported, strrchr_dot]

/-! ### The transfer loop of the client -/

theorem read_count_nat (n : Nat) : read_count (n : Int) = min n 1024 := by
  unfold read_count
  split
  · rename_i h
    have h0 : ¬ ((n : Int) < 0) := by omega
    simp only [h0, if_false, Int.toNat_ofNat]
    omega
  · rename_i h
    omega

theorem read_zero_data (segs : List (List Char)) :
    ∃ segs1 : List (List Char),
      read 0 (segs.map Seg.bytes) = (.data [], segs1.map Seg.bytes) ∧
      segs1.flatten = segs.flatten := by
  induction segs with
  | nil => exact ⟨[], rfl, rfl⟩
  | cons s rest ih =>
    by_cases hs : s = []
    · obtain ⟨segs1, h1, h2⟩ := ih
      exact ⟨segs1, by simp [read, hs, h1], by simp [hs, h2]⟩
    · exact ⟨s :: rest, by simp [read, hs], rfl⟩

theorem read_data_cases (segs : List (List Char)) (count : Nat) (hc : 0 < count)
    (hmax : count ≤ 9223372036854775807) :
    (read count (segs.map Seg.bytes) = (.data [], []) ∧ segs.flatten = []) ∨
    ∃ (b : Char) (bs : List Char) (segs1 : List (List Char)),
      read count (segs.map Seg.bytes) = (.data (b :: bs), segs1.map Seg.bytes) ∧
      (b :: bs) ++ segs1.flatten = segs.flatten ∧ (b :: bs).length ≤ count := by
  have hm : ¬ 9223372036854775807 < count := by omega
  induction segs with
  | nil => exact Or.inl ⟨by simp [read, hm], rfl⟩
  | cons s rest ih =>
    by_cases hs : s = []
    · rcases ih with ⟨h1, h2⟩ | ⟨b, bs, segs1, h1, h2, h3⟩
      · exact Or.inl ⟨by simp [read, hs, h1], by simp [hs, h2]⟩
      · exact Or.inr ⟨b, bs, segs1, by simp [read, hs, h1], by simp [hs, h2], h3⟩
    · right
      have hc0 : count ≠ 0 := by omega
      cases hts : s.take count with
      | nil =>
        have hl := congrArg List.length hts
        rw [List.length_take, List.length_nil] at hl
        have hpos : 0 < s.length := List.length_pos.2 hs
        omega
      | cons b bs =>
        have hlen : (b :: bs).length ≤ count := by
          rw [← hts, List.length_take]; omega
        by_cases hd : s.drop count = []
        · refine ⟨b, bs, rest, ?_, ?_, hlen⟩
          · simp [read, hs, hc0, hm, hts, hd]
          · rw [← hts, List.flatten_cons]
            conv_rhs => rw [← List.take_append_drop count s, hd, List.append_nil]
        · refine ⟨b, bs, s.drop count :: rest, ?_, ?_, hlen⟩
          · simp [read, hs, hc0, hm, hts, hd]
          · rw [← hts, List.flatten_cons, List.flatten_cons, ← List.append_assoc,
              List.take_append_drop]

theorem audio_block_unflagged (env : Env) (audio_out_fd file_dest_fd : Int) (t : Transfer) :
    audio_block env audio_out_fd file_dest_fd false t = .next t := by
  unfold audio_block
  rw [if_neg]
  simp

theorem file_block_unflagged (env : Env) (audio_out_fd file_dest_fd : Int) (t : Transfer) :
    file_block env audio_out_fd file_dest_fd false t = .next t := by
  unfold file_block
  rw [if_neg]
  simp

/-- One pass of the loop when `select` reports the socket only and no write
fails: the bytes of one read go to both sinks (each takes what it takes), the
counter goes down by their number, and the loop is left when the read
returned nothing or the counter has reached 0. -/
theorem transfer_iteration_benign (env : Env) (audio_out_fd file_dest_fd : Int)
    (ha : 0 ≤ audio_out_fd) (hf : 0 ≤ file_dest_fd)
    (t : Transfer) (n ka kf : Nat) (segs : List (List Char))
    (hsel : env.select t.selects = some (true, false, false))
    (hA : env.audio_write t.audio.writes = some ka)
    (hF : env.file_write t.file.writes = some kf)
    (hbtr : t.bytes_to_read = (n : Int))
    (hinp : t.sock.inp = segs.map Seg.bytes) :
    ∃ (t1 : Transfer) (data : List Char) (segs1 : List (List Char)),
      transfer_iteration env audio_out_fd file_dest_fd t = .next t1 ∧
      data ++ segs1.flatten = segs.flatten ∧ data.length ≤ min n 1024 ∧
      (data = [] → n = 0 ∨ segs.flatten = []) ∧
      t1.sock.inp = segs1.map Seg.bytes ∧
      t1.bytes_to_read = ((n - data.length : Nat) : Int) ∧
      t1.audio.written = t.audio.written ++ data.take ka ∧
      t1.file.written = t.file.written ++ data.take kf ∧
      t1.audio.closed = t.audio.closed ∧ t1.file.closed = t.file.closed ∧
      t1.selects = t.selects + 1 ∧
      (data = [] → t1.audio.writes = t.audio.writes ∧ t1.file.writes = t.file.writes) ∧
      (data ≠ [] → t1.audio.writes = t.audio.writes + 1 ∧
        t1.file.writes = t.file.writes + 1) ∧
      (t1.continue_reading = true ↔
        (t.continue_reading = true ∧ data ≠ [] ∧ data.length < n)) := by
  by_cases hn : n = 0
  · subst hn
    obtain ⟨segs1, hr, hflat⟩ := read_zero_data segs
    refine ⟨{ t with
        selects := t.selects + 1
        sock := ⟨segs1.map Seg.bytes, t.sock.out, t.sock.room⟩
        continue_reading := false }, [], segs1, ?_, by simpa using hflat, by simp, by simp, ?_⟩
    · simp only [transfer_iteration, hsel, socket_block, if_true, hbtr, read_count_nat,
        hinp, Nat.zero_min, hr, audio_block_unflagged, file_block_unflagged]
      simp
    · simp [hbtr]
  · have hc : 0 < min n 1024 := by omega
    rcases read_data_cases segs (min n 1024) hc (by omega) with ⟨hr, hflat⟩ | ⟨b, bs, segs1, hr, hcat, hlen⟩
    · refine ⟨{ t with
          selects := t.selects + 1
          sock := ⟨[], t.sock.out, t.sock.room⟩
          continue_reading := false }, [], [], ?_, by simpa using hflat.symm, by simp,
        fun _ => Or.inr hflat, ?_⟩
      · simp only [transfer_iteration, hsel, socket_block, if_true, hbtr, read_count_nat,
          hinp, hr, audio_block_unflagged, file_block_unflagged]
        simp [hn]
      · simp [hbtr]
    · have h1 : ¬ (1024 < (b :: bs).length) := by omega
      have h2 : ¬ ((n : Int) - ((b :: bs).length : Nat) < -2147483648) := by omega
      have hle : (b :: bs).length ≤ n := by omega
      by_cases hz : n - (b :: bs).length = 0
      · refine ⟨{ t with
            selects := t.selects + 1
            sock := ⟨segs1.map Seg.bytes, t.sock.out, t.sock.room⟩
            bytes_read := t.bytes_read + ((b :: bs).length : Nat)
            bytes_to_read := (n : Int) - ((b :: bs).length : Nat)
            audio := ⟨t.audio.written ++ (b :: bs).take ka, t.audio.writes + 1, t.audio.reads,
              t.audio.closed⟩
            file := ⟨t.file.written ++ (b :: bs).take kf, t.file.writes + 1, t.file.reads,
              t.file.closed⟩
            continue_reading := false }, b :: bs, segs1, ?_, hcat, hlen, by simp, ?_⟩
        · have hz' : (n : Int) - ((bs.length : Int) + 1) = 0 := by
            simp only [List.length_cons] at hz hle; omega
          simp only [transfer_iteration, hsel, socket_block, if_true, hbtr, read_count_nat,
            hinp, hr, after_read, h1, h2, if_false, write_sinks, ha, hf, ge_iff_le, hA, hF,
            audio_block_unflagged, file_block_unflagged]
          simp [hz']
        · refine ⟨rfl, by simp only; omega, rfl, rfl, rfl, rfl, rfl, by simp, by simp, ?_⟩
          simp only [Bool.false_eq_true, false_iff, not_and, not_lt]
          intro _ _
          omega
      · refine ⟨{ t with
            selects := t.selects + 1
            sock := ⟨segs1.map Seg.bytes, t.sock.out, t.sock.room⟩
            bytes_read := t.bytes_read + ((b :: bs).length : Nat)
            bytes_to_read := (n : Int) - ((b :: bs).length : Nat)
            audio := ⟨t.audio.written ++ (b :: bs).take ka, t.audio.writes + 1, t.audio.reads,
              t.audio.closed⟩
            file := ⟨t.file.written ++ (b :: bs).take kf, t.file.writes + 1, t.file.reads,
              t.file.closed⟩ }, b :: bs, segs1, ?_, hcat, hlen, by simp, ?_⟩
        · have hz' : ¬ ((n : Int) - ((bs.length : Int) + 1) = 0) := by
            simp only [List.length_cons] at hz hle; omega
          simp only [transfer_iteration, hsel, socket_block, if_true, hbtr, read_count_nat,
            hinp, hr, after_read, h1, h2, if_false, write_sinks, ha, hf, ge_iff_le, hA, hF,
            audio_block_unflagged, file_block_unflagged]
          simp [hz']
        · refine ⟨rfl, by simp only; omega, rfl, rfl, rfl, rfl, rfl, by simp, by simp, ?_⟩
          simp only [ne_eq, reduceCtorEq, not_false_eq_true, true_and]
          constructor
          · intro h; exact ⟨h, by omega⟩
          · intro h; exact h.1

theorem transfer_loop_stopped (env : Env) (audio_out_fd file_dest_fd : Int) (fuel : Nat)
    (t : Transfer) (h : t.continue_reading = false) :
    transfer_loop env audio_out_fd file_dest_fd fuel t =
      some (transfer_close audio_out_fd file_dest_fd t) := by
  cases fuel <;> simp [transfer_loop, h]

/-- The whole loop when `select` reports the socket only and no write fails:
it ends with the return value 0 and both sinks closed, after at most as
many passes as bytes remain to be read plus one; a sink that takes every write
in full has received the bytes of the source up to the declared length, a sink
that takes nothing has received nothing. -/
theorem transfer_loop_benign (env : Env) (audio_out_fd file_dest_fd : Int)
    (ha : 0 ≤ audio_out_fd) (hf : 0 ≤ file_dest_fd)
    (hsel : ∀ i, env.select i = some (true, false, false))
    (hA : ∀ i, ∃ k, env.audio_write i = some k)
    (hF : ∀ i, ∃ k, env.file_write i = some k) :
    ∀ (n fuel : Nat) (t : Transfer) (segs : List (List Char)),
      n < fuel → t.bytes_to_read = (n : Int) → t.continue_reading = true →
      t.sock.inp = segs.map Seg.bytes →
      ∃ t1 : Transfer,
        transfer_loop env audio_out_fd file_dest_fd fuel t = some (.ret 0 t1) ∧
        t1.audio.closed = true ∧ t1.file.closed = true ∧
        ((∀ i, ∃ k, env.audio_write i = some k ∧ 1024 ≤ k) →
          t1.audio.written = t.audio.written ++ segs.flatten.take n) ∧
        ((∀ i, ∃ k, env.file_write i = some k ∧ 1024 ≤ k) →
          t1.file.written = t.file.written ++ segs.flatten.take n) ∧
        ((∀ i, env.audio_write i = some 0) → t1.audio.written = t.audio.written) ∧
        ((∀ i, env.file_write i = some 0) → t1.file.written = t.file.written) := by
  intro n
  induction n using Nat.strong_induction_on with
  | _ n ih =>
    intro fuel t segs hfuel hbtr hcr hinp
    cases fuel with
    | zero => omega
    | succ f =>
      obtain ⟨ka, hka⟩ := hA t.audio.writes
      obtain ⟨kf, hkf⟩ := hF t.file.writes
      obtain ⟨t1, data, segs1, hit, hcat, hlen, hnil, hinp1, hbtr1, haw, hfw, hac, hfc, _, _, _,
        hcr1⟩ := transfer_iteration_benign env audio_out_fd file_dest_fd ha hf t n ka kf segs
          (hsel _) hka hkf hbtr hinp
      have hloop : transfer_loop env audio_out_fd file_dest_fd (f + 1) t =
          transfer_loop env audio_out_fd file_dest_fd f t1 := by
        rw [transfer_loop, if_pos hcr, hit]
      have htake : ∀ k, 1024 ≤ k → data.take k = data := fun k hk =>
        List.take_of_length_le (by omega)
      by_cases hgo : t1.continue_reading = true
      · obtain ⟨_, hne, hlt⟩ := hcr1.1 hgo
        have hpos : 0 < data.length := List.length_pos.2 hne
        obtain ⟨t2, hres, hc1, hc2, hw1, hw2, hz1, hz2⟩ :=
          ih (n - data.length) (by omega) f t1 segs1 (by omega) hbtr1 hgo hinp1
        have hsplit : segs.flatten.take n =
            data ++ segs1.flatten.take (n - data.length) := by
          rw [← hcat, List.take_append_eq_append_take, List.take_of_length_le (by omega)]
        refine ⟨t2, by rw [hloop, hres], hc1, hc2, ?_, ?_, ?_, ?_⟩
        · intro hall
          obtain ⟨k, hk, hk1⟩ := hall t.audio.writes
          rw [hka] at hk; cases hk
          rw [hw1 hall, haw, htake _ hk1, hsplit, List.append_assoc]
        · intro hall
          obtain ⟨k, hk, hk1⟩ := hall t.file.writes
          rw [hkf] at hk; cases hk
          rw [hw2 hall, hfw, htake _ hk1, hsplit, List.append_assoc]
        · intro hzero
          have := hzero t.audio.writes
          rw [hka] at this; cases this
          rw [hz1 hzero, haw]; simp
        · intro hzero
          have := hzero t.file.writes
          rw [hkf] at this; cases this
          rw [hz2 hzero, hfw]; simp
      · have hstop : t1.continue_reading = false := by simpa using hgo
        have hdata : segs.flatten.take n = data := by
          by_cases hd : data = []
          · rcases hnil hd with h0 | h0
            · simp [h0, hd]
            · simp [h0, hd]
          · have : ¬ data.length < n := fun hlt => hgo (hcr1.2 ⟨hcr, hd, hlt⟩)
            rw [← hcat, List.take_append_eq_append_take, List.take_of_length_le (by omega)]
            have h0 : n - data.length = 0 := by omega
            simp [h0]
        refine ⟨_, by rw [hloop, transfer_loop_stopped _ _ _ _ _ hstop]; rfl, ?_, ?_, ?_, ?_,
          ?_, ?_⟩
        · simp [ha]
        · simp [hf]
        · intro hall
          obtain ⟨k, hk, hk1⟩ := hall t.audio.writes
          rw [hka] at hk; cases hk
          simp only [haw, htake _ hk1, hdata]
        · intro hall
          obtain ⟨k, hk, hk1⟩ := hall t.file.writes
          rw [hkf] at hk; cases hk
          simp only [hfw, htake _ hk1, hdata]
        · intro hzero
          have := hzero t.audio.writes
          rw [hka] at this; cases this
          simp [haw]
        · intro hzero
          have := hzero t.file.writes
          rw [hkf] at this; cases this
          simp [hfw]

theorem int_of_uint32_small (L : Nat) (hL : L < 2147483648) : int_of_uint32 L = (L : Int) := by
  have h1 : L % 4294967296 = L := Nat.mod_eq_of_lt (by omega)
  simp [int_of_uint32, h1, hL]

/-- A whole call of send_and_process_stream_request with two sinks when
`select` reports the socket only, the size header arrives in one piece and no
write fails. -/
theorem send_and_process_benign (le : Bool) (env : Env) (fuel L file_index : Nat)
    (d0 out : List Char) (segs : List (List Char)) (audio_out_fd file_dest_fd : Int)
    (audio file : SinkState)
    (ha : 0 ≤ audio_out_fd) (hf : 0 ≤ file_dest_fd)
    (hsel : ∀ i, env.select i = some (true, false, false))
    (hA : ∀ i, ∃ k, env.audio_write i = some k)
    (hF : ∀ i, ∃ k, env.file_write i = some k)
    (hL : L < 2147483648) (hfuel : L < fuel) :
    ∃ t1 : Transfer,
      send_and_process_stream_request le env fuel
          ⟨Seg.bytes (store32 false L ++ d0) :: segs.map Seg.bytes, out, none⟩ file_index
          audio_out_fd file_dest_fd audio file = some (.ret 0 t1) ∧
      t1.audio.closed = true ∧ t1.file.closed = true ∧
      ((∀ i, ∃ k, env.audio_write i = some k ∧ 1024 ≤ k) →
        t1.audio.written = audio.written ++ (d0 ++ segs.flatten).take L) ∧
      ((∀ i, ∃ k, env.file_write i = some k ∧ 1024 ≤ k) →
        t1.file.written = file.written ++ (d0 ++ segs.flatten).take L) ∧
      ((∀ i, env.audio_write i = some 0) → t1.audio.written = audio.written) ∧
      ((∀ i, env.file_write i = some 0) → t1.file.written = file.written) := by
  have hne : store32 false L ++ d0 ≠ [] := by simp [store32]
  have ht : (store32 false L ++ d0).take 4 = store32 false L ++ [] := by
    rw [List.take_append_of_le_length (by simp [store32])]
    simp [store32]
  have hd : (store32 false L ++ d0).drop 4 = d0 := by
    have : 4 = (store32 false L).length + 0 := rfl
    rw [this, List.drop_append]; rfl
  have hl := ntohl_load32 le L (by omega) []
  cases hload : load32 le (store32 false L ++ []) with
  | none => rw [hload] at hl; simp at hl
  | some v =>
    simp only [hload, Option.map_some', Option.some.injEq] at hl
    have hread : ∃ segs1 : List (List Char),
        read 4 (Seg.bytes (store32 false L ++ d0) :: segs.map Seg.bytes) =
          (.data (store32 false L ++ []), segs1.map Seg.bytes) ∧
        segs1.flatten = d0 ++ segs.flatten := by
      by_cases hd0 : d0 = []
      · refine ⟨segs, ?_, by simp [hd0]⟩
        rw [read, if_neg hne, if_neg (by decide), if_neg (by decide), ht, hd, if_pos hd0]
      · refine ⟨d0 :: segs, ?_, by simp⟩
        rw [read, if_neg hne, if_neg (by decide), if_neg (by decide), ht, hd, if_neg hd0]
        rfl
    obtain ⟨segs1, hr, hflat⟩ := hread
    obtain ⟨t1, hres, hrest⟩ :=
      transfer_loop_benign env audio_out_fd file_dest_fd ha hf hsel hA hF L fuel
        (transfer_start ⟨segs1.map Seg.bytes,
          out ++ (REQUEST_STREAM ++ END_OF_MESSAGE_TOKEN) ++ store32 le (htonl le file_index),
          none⟩ audio file audio_out_fd file_dest_fd (L : Int)) segs1 hfuel rfl rfl rfl
    refine ⟨t1, ?_, ?_⟩
    · simp only [send_and_process_stream_request, write_precisely_open, hr, hload, hl,
        int_of_uint32_small L hL]
      exact hres
    · simpa [transfer_start, hflat] using hrest

/-! ### Partial writes, failing sinks, a source that ends early -/

/-- C4 (the code at the failing input): declared length 4, source "abcd", an
audio sink that takes 2 bytes of each write and a file sink that takes
everything. The function returns 0; the file sink has "abcd", the audio sink
only "ab": the two bytes it did not take in the one write were dropped. -/
theorem partial_write_drops_bytes :
    transfer_summary (send_and_process_stream_request true
      (Env.socket_only (fun _ => some 2) (fun _ => some 1024)) 3
      ⟨[Seg.bytes (store32 false 4 ++ ['a', 'b', 'c', 'd'])], [], none⟩ 0 4 5
      SinkState.fresh SinkState.fresh) = some (0, ['a', 'b'], ['a', 'b', 'c', 'd']) := by
  decide

/-- C6 (the code at the failing input): declared length 4, the source ends
after "ab". The function returns 0, not -1. And with declared length 6, a
source that ends after "ab" and "cd", and an audio sink that takes one byte of
each write, the audio sink has received "ac", which is not a prefix of
"abcd". -/
theorem early_eof_returns_zero :
    transfer_summary (send_and_process_stream_request true
      (Env.socket_only (fun _ => some 1024) (fun _ => some 1024)) 3
      ⟨[Seg.bytes (store32 false 4 ++ ['a', 'b'])], [], none⟩ 0 4 5
      SinkState.fresh SinkState.fresh) = some (0, ['a', 'b'], ['a', 'b']) ∧
    transfer_summary (send_and_process_stream_request true
      (Env.socket_only (fun _ => some 1) (fun _ => some 1024)) 4
      ⟨[Seg.bytes (store32 false 6 ++ ['a', 'b']), Seg.bytes ['c', 'd']], [], none⟩ 0 4 5
      SinkState.fresh SinkState.fresh) = some (0, ['a', 'c'], ['a', 'b', 'c', 'd']) := by
  constructor <;> decide

/-- A source that ends early, for every declared length L below 2^31 whose
header arrives in one read: when the source reports end-of-stream after
delivering fewer than L bytes, with two sinks, `select` reporting the socket
only and no write failing, the function leaves the loop, closes both sinks and
returns 0; a sink that takes every write in full has received exactly the
bytes the source delivered. -/
theorem early_eof_ends_transfer (le : Bool) (env : Env) (fuel L file_index : Nat)
    (d0 out : List Char) (segs : List (List Char)) (audio_out_fd file_dest_fd : Int)
    (audio file : SinkState)
    (ha : 0 ≤ audio_out_fd) (hf : 0 ≤ file_dest_fd)
    (hsel : ∀ i, env.select i = some (true, false, false))
    (hA : ∀ i, ∃ k, env.audio_write i = some k)
    (hF : ∀ i, ∃ k, env.file_write i = some k)
    (hshort : (d0 ++ segs.flatten).length < L)
    (hL : L < 2147483648) (hfuel : L < fuel) :
    ∃ t1 : Transfer,
      send_and_process_stream_request le env fuel
          ⟨Seg.bytes (store32 false L ++ d0) :: segs.map Seg.bytes, out, none⟩ file_index
          audio_out_fd file_dest_fd audio file = some (.ret 0 t1) ∧
      t1.audio.closed = true ∧ t1.file.closed = true ∧
      ((∀ i, ∃ k, env.audio_write i = some k ∧ 1024 ≤ k) →
        t1.audio.written = audio.written ++ (d0 ++ segs.flatten)) ∧
      ((∀ i, ∃ k, env.file_write i = some k ∧ 1024 ≤ k) →
        t1.file.written = file.written ++ (d0 ++ segs.flatten)) := by
  obtain ⟨t1, hres, hc1, hc2, hw1, hw2, _, _⟩ :=
    send_and_process_benign le env fuel L file_index d0 out segs audio_out_fd file_dest_fd
      audio file ha hf hsel hA hF hL hfuel
  have htake : (d0 ++ segs.flatten).take L = d0 ++ segs.flatten :=
    List.take_of_length_le (by omega)
  rw [htake] at hw1 hw2
  exact ⟨t1, hres, hc1, hc2, hw1, hw2⟩

/-! ### Supported extensions -/

theorem strrchr_dot_none (s : List Char) : strrchr_dot s = none ↔ '.' ∉ s := by
  induction s with
  | nil => simp [strrchr_dot]
  | cons c t ih =>
    rw [strrchr_dot]
    cases h : strrchr_dot t with
    | some r =>
      have : ¬ ('.' ∉ t) := fun hn => by rw [ih.2 hn] at h; cases h
      simp only [reduceCtorEq, false_iff, List.mem_cons, not_or, not_and, not_not]
      intro _
      exact not_not.1 this
    | none =>
      have ht := ih.1 h
      by_cases hc : c = '.'
      · simp [hc]
      · simp only [hc, if_false, true_iff, List.mem_cons, not_or]
        exact ⟨fun e => hc e.symm, ht⟩

theorem strrchr_dot_some (s suffix : List Char) :
    strrchr_dot s = some suffix ↔
      ∃ pre post, s = pre ++ '.' :: post ∧ '.' ∉ post ∧ suffix = '.' :: post := by
  induction s generalizing suffix with
  | nil => simp [strrchr_dot]
  | cons c t ih =>
    rw [strrchr_dot]
    cases h : strrchr_dot t with
    | some r =>
      obtain ⟨pre, post, ht, hpost, hr⟩ := (ih r).1 h
      simp only [Option.some.injEq]
      constructor
      · rintro rfl
        exact ⟨c :: pre, post, by simp [ht], hpost, hr⟩
      · rintro ⟨pre2, post2, hs, hpost2, rfl⟩
        cases pre2 with
        | nil =>
          simp only [List.nil_append, List.cons.injEq] at hs
          exfalso
          apply hpost2
          rw [← hs.2, ht]
          simp
        | cons a pre3 =>
          simp only [List.cons_append, List.cons.injEq] at hs
          have := (ih ('.' :: post2)).2 ⟨pre3, post2, hs.2, hpost2, rfl⟩
          rw [h] at this
          exact Option.some.inj this
    | none =>
      have ht := (strrchr_dot_none t).1 h
      by_cases hc : c = '.'
      · subst hc
        simp only [if_true, Option.some.injEq]
        constructor
        · rintro rfl
          exact ⟨[], t, rfl, ht, rfl⟩
        · rintro ⟨pre2, post2, hs, hpost2, rfl⟩
          cases pre2 with
          | nil =>
            simp only [List.nil_append, List.cons.injEq, true_and] at hs
            rw [hs]
          | cons a pre3 =>
            simp only [List.cons_append, List.cons.injEq] at hs
            exfalso
            apply ht
            rw [hs.2]
            simp
      · simp only [hc, if_false, reduceCtorEq, false_iff, not_exists, not_and]
        intro pre2 post2 hs
        cases pre2 with
        | nil =>
          simp only [List.nil_append, List.cons.injEq] at hs
          exact absurd hs.1 hc
        | cons a pre3 =>
          simp only [List.cons_append, List.cons.injEq] at hs
          exfalso
          apply ht
          rw [hs.2]
          simp

/-- C20: _is_file_extension_supported returns 1 exactly when the filename
contains a '.' and the suffix that starts at its last '.' (the filename is
`pre ++ '.' :: post` with no '.' in `post`) is, character for character, one
of the entries of SUPPORTED_FILE_EXTS; a name without any '.' is never
supported. -/
theorem is_file_extension_supported_iff (exts : List (List Char)) (filename : List Char) :
    (_is_file_extension_supported exts filename = true ↔
      ∃ pre post, filename = pre ++ '.' :: post ∧ '.' ∉ post ∧ ('.' :: post) ∈ exts) ∧
    ('.' ∉ filename → _is_file_extension_supported exts filename = false) := by
  constructor
  · unfold _is_file_extension_supported
    rw [List.any_eq_true]
    constructor
    · rintro ⟨ext, hext, h⟩
      cases hs : strrchr_dot filename with
      | none => simp [hs] at h
      | some suffix =>
        simp only [hs, beq_iff_eq] at h
        obtain ⟨pre, post, hf, hpost, hsuf⟩ := (strrchr_dot_some filename suffix).1 hs
        exact ⟨pre, post, hf, hpost, by rw [← hsuf, h]; exact hext⟩
    · rintro ⟨pre, post, hf, hpost, hmem⟩
      have hs := (strrchr_dot_some filename ('.' :: post)).2 ⟨pre, post, hf, hpost, rfl⟩
      exact ⟨'.' :: post, hmem, by simp [hs]⟩
  · intro hdot
    have hs := (strrchr_dot_none filename).2 hdot
    unfold _is_file_extension_supported
    simp [hs]

/-! ### The catalog scan -/

mutual
theorem depth_scan_library_listing (exts : List (List Char))
    (join : List Char → List Char → List Char) (library : Library) (current_path : List Char) :
    ∀ d : Option (List DirEntry),
      0 ≤ (_depth_scan_library exts join library current_path d).1 →
      _depth_scan_library exts join library current_path d =
        (0, ⟨library.path, library.files ++ dir_listing exts join current_path d⟩)
  | none, h => by
    simp [_depth_scan_library] at h
  | some entries, h => by
    rw [_depth_scan_library] at h ⊢
    rw [dir_listing]
    exact depth_scan_entries_listing exts join library current_path entries h
theorem depth_scan_entries_listing (exts : List (List Char))
    (join : List Char → List Char → List Char) (library : Library) (current_path : List Char) :
    ∀ entries : List DirEntry,
      0 ≤ (_depth_scan_entries exts join library current_path entries).1 →
      _depth_scan_entries exts join library current_path entries =
        (0, ⟨library.path, library.files ++ entries_listing exts join current_path entries⟩)
  | [], _ => by
    simp [_depth_scan_entries, entries_listing]
  | .reg d_name :: rest, h => by
    rw [_depth_scan_entries] at h ⊢
    rw [entries_listing]
    by_cases hs : _is_file_extension_supported exts d_name = true
    · rw [if_pos hs] at h ⊢
      rw [if_pos hs]
      rw [depth_scan_entries_listing exts join _ current_path rest h]
      simp
    · rw [if_neg hs] at h ⊢
      rw [if_neg hs]
      rw [depth_scan_entries_listing exts join _ current_path rest h]
      simp
  | .dir d_name sub :: rest, h => by
    rw [_depth_scan_entries] at h ⊢
    rw [entries_listing]
    by_cases hd : d_name = ['.'] ∨ d_name = ['.', '.']
    · rw [if_pos hd] at h ⊢
      rw [if_pos hd]
      rw [depth_scan_entries_listing exts join _ current_path rest h]
      simp
    · rw [if_neg hd] at h ⊢
      rw [if_neg hd]
      by_cases hr : (_depth_scan_library exts join library (join current_path d_name) sub).1 < 0
      · exfalso
        simp only [hr, if_true] at h
        omega
      · have hsub := depth_scan_library_listing exts join library (join current_path d_name) sub
          (not_lt.1 hr)
        rw [hsub] at h ⊢
        simp only [lt_self_iff_false, if_false] at h ⊢
        rw [depth_scan_entries_listing exts join _ current_path rest h]
        simp
  | .other _ :: rest, h => by
    rw [_depth_scan_entries] at h ⊢
    rw [entries_listing]
    exact depth_scan_entries_listing exts join library current_path rest h
end

/-- C11: a successful scan_library (return value not negative) returns 0 and
leaves the library holding exactly the depth-first listing of the tree under
the root: the relative path of every regular file with a supported extension,
appended when it is enumerated, every subdirectory other than "." and ".."
listed completely when it is enumerated; and the outcome of a scan is the same
whatever paths the library held before the call. -/
theorem scan_library_is_listing (exts : List (List Char))
    (join : List Char → List Char → List Char) (library : Library)
    (root : Option (List DirEntry))
    (h : 0 ≤ (scan_library exts join library root).1) :
    scan_library exts join library root =
        (0, ⟨library.path, dir_listing exts join [] root⟩) ∧
      ∀ previous : List (List Char),
        scan_library exts join ⟨library.path, previous⟩ root =
          scan_library exts join library root := by
  refine ⟨?_, fun previous => rfl⟩
  unfold scan_library at h ⊢
  rw [depth_scan_library_listing exts join _ [] root h]
  simp [_free_library]

/-- C11 at a tree with the files a.wav, notes.txt and b.wav, the directory
sub holding c.wav and x.mp3 between them, and a previous catalog of one
path. -/
theorem scan_library_is_listing_witness :
    0 ≤ (scan_library [".wav".toList] slash_join ⟨"lib".toList, ["old.wav".toList]⟩
          (some [.reg "a.wav".toList, .dir ".".toList none, .reg "notes.txt".toList,
            .dir "sub".toList (some [.reg "c.wav".toList, .other "fifo.wav".toList,
              .reg "x.mp3".toList]),
            .reg "b.wav".toList])).1 ∧
      dir_listing [".wav".toList] slash_join []
          (some [.reg "a.wav".toList, .dir ".".toList none, .reg "notes.txt".toList,
            .dir "sub".toList (some [.reg "c.wav".toList, .other "fifo.wav".toList,
              .reg "x.mp3".toList]),
            .reg "b.wav".toList]) =
        ["a.wav".toList, "sub/c.wav".toList, "b.wav".toList] ∧
      scan_library [".wav".toList] slash_join ⟨"lib".toList, ["old.wav".toList]⟩
          (some [.reg "a.wav".toList, .dir ".".toList none, .reg "notes.txt".toList,
            .dir "sub".toList (some [.reg "c.wav".toList, .other "fifo.wav".toList,
              .reg "x.mp3".toList]),
            .reg "b.wav".toList]) =
        (0, ⟨"lib".toList, dir_listing [".wav".toList] slash_join []
          (some [.reg "a.wav".toList, .dir ".".toList none, .reg "notes.txt".toList,
            .dir "sub".toList (some [.reg "c.wav".toList, .other "fifo.wav".toList,
              .reg "x.mp3".toList]),
            .reg "b.wav".toList])⟩) := by
  have ha : _is_file_extension_supported [".wav".toList] "a.wav".toList = true := by decide
  have hb : _is_file_extension_supported [".wav".toList] "b.wav".toList = true := by decide
  have hc : _is_file_extension_supported [".wav".toList] "c.wav".toList = true := by decide
  have hn : ¬ _is_file_extension_supported [".wav".toList] "notes.txt".toList = true := by
    decide
  have hx : ¬ _is_file_extension_supported [".wav".toList] "x.mp3".toList = true := by decide
  have hdot : ".".toList = ['.'] ∨ ".".toList = ['.', '.'] := by decide
  have hsub : ¬ ("sub".toList = ['.'] ∨ "sub".toList = ['.', '.']) := by decide
  have h : 0 ≤ (scan_library [".wav".toList] slash_join ⟨"lib".toList, ["old.wav".toList]⟩
      (some [.reg "a.wav".toList, .dir ".".toList none, .reg "notes.txt".toList,
        .dir "sub".toList (some [.reg "c.wav".toList, .other "fifo.wav".toList,
          .reg "x.mp3".toList]),
        .reg "b.wav".toList])).1 := by
    rw [scan_library, _free_library, _depth_scan_library]
    rw [_depth_scan_entries, if_pos ha]
    rw [_depth_scan_entries, if_pos hdot]
    rw [_depth_scan_entries, if_neg hn]
    rw [_depth_scan_entries, if_neg hsub, _depth_scan_library]
    rw [_depth_scan_entries, if_pos hc]
    rw [_depth_scan_entries]
    rw [_depth_scan_entries, if_neg hx]
    rw [_depth_scan_entries]
    simp only [lt_self_iff_false, if_false]
    rw [_depth_scan_entries, if_pos hb]
    rw [_depth_scan_entries]
  refine ⟨h, ?_, (scan_library_is_listing _ _ _ _ h).1⟩
  simp only [dir_listing, entries_listing, if_pos ha, if_pos hb, if_pos hc, if_neg hn,
    if_neg hx, if_pos hdot, if_neg hsub]
  decide

/-! ### The rescan counter of the supervisor -/

theorem run_server_counter_succ (K : Int) (hK : 1 ≤ K) (i : Nat) :
    run_server_counter K (i + 1) = (i : Int) % K + 1 := by
  induction i with
  | zero =>
    have h0 : ¬ ((0 : Int) ≥ K) := by omega
    simp [run_server_counter, run_server_pass, run_server_scan, h0]
  | succ j ih =>
    rw [run_server_counter, ih, run_server_pass, run_server_scan]
    have hnn : 0 ≤ (j : Int) % K := Int.emod_nonneg _ (by omega)
    have hlt : (j : Int) % K < K := Int.emod_lt_of_pos _ (by omega)
    have hstep : ((j + 1 : Nat) : Int) % K = ((j : Int) % K + 1) % K := by
      push_cast
      exact (Int.emod_add_emod _ _ _).symm
    by_cases hc : (j : Int) % K + 1 ≥ K
    · have he : (j : Int) % K + 1 = K := by omega
      rw [if_pos hc, hstep, he, Int.emod_self]
    · rw [if_neg hc, hstep, Int.emod_eq_of_lt (a := (j : Int) % K + 1) (by omega) (by omega)]

theorem run_server_counter_dvd (K : Int) (hK : 1 ≤ K) (i : Nat) :
    run_server_counter K i ≥ K ↔ 0 < i ∧ K ∣ (i : Int) := by
  cases i with
  | zero =>
    simp only [run_server_counter, lt_self_iff_false, false_and, iff_false]
    omega
  | succ j =>
    rw [run_server_counter_succ K hK j]
    have hnn : 0 ≤ (j : Int) % K := Int.emod_nonneg _ (by omega)
    have hlt : (j : Int) % K < K := Int.emod_lt_of_pos _ (by omega)
    have hstep : ((j + 1 : Nat) : Int) % K = ((j : Int) % K + 1) % K := by
      push_cast
      exact (Int.emod_add_emod _ _ _).symm
    rw [Int.dvd_iff_emod_eq_zero, hstep]
    constructor
    · intro h
      have he : (j : Int) % K + 1 = K := by omega
      exact ⟨Nat.succ_pos j, by rw [he, Int.emod_self]⟩
    · rintro ⟨_, h⟩
      by_contra hc
      rw [Int.emod_eq_of_lt (a := (j : Int) % K + 1) (by omega) (by omega)] at h
      omega

/-- C19: with LIBRARY_SCAN_INTERVAL = K at least 1, while the loop of
run_server runs, the counter num_intervals_without_scan at the top of pass
number `i` is at most K (it is the number of passes since the last scan, or
since the start); scan_library is called at the top of the pass exactly when
the counter is K, which is exactly at the passes K, 2K, 3K, ..., and the
counter is 0 right after the scan. -/
theorem run_server_scan_interval (K : Int) (hK : 1 ≤ K) (i : Nat) :
    run_server_counter K i ≤ K ∧
      run_server_counter K (i + 1) = (i : Int) % K + 1 ∧
      ((run_server_scan K (run_server_counter K i)).1 = true ↔ run_server_counter K i = K) ∧
      ((run_server_scan K (run_server_counter K i)).1 = true ↔ 0 < i ∧ K ∣ (i : Int)) ∧
      ((run_server_scan K (run_server_counter K i)).1 = true →
        (run_server_scan K (run_server_counter K i)).2 = 0) := by
  have hle : run_server_counter K i ≤ K := by
    cases i with
    | zero =>
      simp only [run_server_counter]
      omega
    | succ j =>
      rw [run_server_counter_succ K hK j]
      have hlt : (j : Int) % K < K := Int.emod_lt_of_pos _ (by omega)
      omega
  have hd := run_server_counter_dvd K hK i
  have hs : (run_server_scan K (run_server_counter K i)).1 = true ↔
      run_server_counter K i ≥ K := by
    unfold run_server_scan
    by_cases hc : run_server_counter K i ≥ K
    · simp [hc]
    · simp [hc]
  refine ⟨hle, run_server_counter_succ K hK i, ?_, hs.trans hd, ?_⟩
  · rw [hs]
    constructor
    · intro h
      omega
    · intro h
      omega
  · intro h
    have hc := hs.1 h
    unfold run_server_scan
    rw [if_pos hc]

/-- C19 at LIBRARY_SCAN_INTERVAL = 3 and the pass number 6. -/
theorem run_server_scan_interval_witness :
    (1 : Int) ≤ 3 ∧ run_server_counter 3 6 ≤ 3 ∧
      run_server_counter 3 (6 + 1) = ((6 : Nat) : Int) % 3 + 1 ∧
      ((run_server_scan 3 (run_server_counter 3 6)).1 = true ↔ run_server_counter 3 6 = 3) ∧
      ((run_server_scan 3 (run_server_counter 3 6)).1 = true ↔
        0 < 6 ∧ (3 : Int) ∣ ((6 : Nat) : Int)) ∧
      ((run_server_scan 3 (run_server_counter 3 6)).1 = true →
        (run_server_scan 3 (run_server_counter 3 6)).2 = 0) :=
  ⟨by decide, run_server_scan_interval 3 (by decide) 6⟩

/-! ### The chunks of a streamed file -/

theorem read_segment (count : Nat) (d : List Char) (more : List Seg) (hd : d ≠ [])
    (hfit : d.length ≤ count) (hmax : count ≤ 9223372036854775807) :
    read count (Seg.bytes d :: more) = (.data d, more) := by
  have hpos : 0 < d.length := List.length_pos.2 hd
  have hc : ¬ count = 0 := by omega
  have hm : ¬ 9223372036854775807 < count := by omega
  rw [read, if_neg hd, if_neg hc, if_neg hm, List.take_of_length_le hfit,
    List.drop_of_length_le hfit, if_pos rfl]

theorem handle_client_skip (le : Bool) (Q C : Nat)
    (join : List Char → List Char → List Char) (fopen : List Char → Option (List Char))
    (library : Library) (fuel : Nat) (more : List Seg) (out : List Char) (room : Option Nat)
    (buf d line rest : List Char) (hd : d ≠ []) (hfit : buf.length + d.length ≤ Q)
    (hQmax : Q ≤ 9223372036854775807)
    (hsplit : buf ++ d = line ++ '\r' :: '\n' :: rest) (hline : '\n' ∉ line)
    (hl : cstr line ≠ REQUEST_LIST) (hs : cstr line ≠ REQUEST_STREAM) :
    handle_client le Q C join fopen library (fuel + 1) ⟨Seg.bytes d :: more, out, room⟩ buf =
      handle_client le Q C join fopen library fuel ⟨more, out, room⟩ rest := by
  obtain ⟨b, bs, rfl⟩ := List.exists_cons_of_ne_nil hd
  rw [handle_client]
  simp only []
  rw [read_segment (Q - buf.length) (b :: bs) more hd (by omega) (by omega)]
  simp only []
  rw [hsplit, find_network_newline_line line rest hline]
  simp only [hl, hs, if_false]

theorem handle_client_list (le : Bool) (Q C : Nat)
    (join : List Char → List Char → List Char) (fopen : List Char → Option (List Char))
    (library : Library) (fuel : Nat) (more : List Seg) (out : List Char) (room : Option Nat)
    (v : Int) (s : Sock) (hQ : 6 ≤ Q) (hQmax : Q ≤ 9223372036854775807)
    (hresp : list_request_response ⟨more, out, room⟩ library = .ret v s) (hv : 0 ≤ v) :
    handle_client le Q C join fopen library (fuel + 1)
        ⟨Seg.bytes (REQUEST_LIST ++ END_OF_MESSAGE_TOKEN) :: more, out, room⟩ [] =
      handle_client le Q C join fopen library fuel s [] := by
  rw [handle_client]
  simp only []
  rw [read_segment (Q - ([] : List Char).length) (REQUEST_LIST ++ END_OF_MESSAGE_TOKEN) more
    (by decide) (by simpa [REQUEST_LIST, END_OF_MESSAGE_TOKEN] using hQ)
    (by simpa using hQmax)]
  have hfind : find_network_newline ([] ++ 'L' :: ['I', 'S', 'T', '\r', '\n']) =
      some (REQUEST_LIST, []) := by decide
  have hnot : ¬ v < 0 := by omega
  simp only [REQUEST_LIST, END_OF_MESSAGE_TOKEN, List.cons_append, List.nil_append] at hresp ⊢
  simp only [List.nil_append] at hfind
  simp only [hfind, REQUEST_LIST, hresp, hnot, if_false]
  simp [cstr]

/-- An unknown command that fits the request buffer: when a read completes a
command line (the first CR LF of the buffered bytes ends `line`) whose C
string is neither LIST nor STREAM, handle_client carries on exactly as the
loop does with the same socket, nothing written to it, and with the request
buffer holding the bytes after that line and its CR LF. A LIST request that
arrives in a later read, the buffer being empty, is then answered by
list_request_response. -/
theorem handle_client_unknown_command (le : Bool) (Q C : Nat)
    (join : List Char → List Char → List Char) (fopen : List Char → Option (List Char))
    (library : Library) (fuel : Nat) (more : List Seg) (out : List Char) (room : Option Nat)
    (buf d line rest : List Char) (hd : d ≠ []) (hfit : buf.length + d.length ≤ Q)
    (hQmax : Q ≤ 9223372036854775807)
    (hsplit : buf ++ d = line ++ '\r' :: '\n' :: rest) (hline : '\n' ∉ line)
    (hl : cstr line ≠ REQUEST_LIST) (hs : cstr line ≠ REQUEST_STREAM) :
    handle_client le Q C join fopen library (fuel + 1) ⟨Seg.bytes d :: more, out, room⟩ buf =
        handle_client le Q C join fopen library fuel ⟨more, out, room⟩ rest ∧
      ∀ (more2 : List Seg) (v : Int) (s : Sock), rest = [] →
        more = Seg.bytes (REQUEST_LIST ++ END_OF_MESSAGE_TOKEN) :: more2 → 6 ≤ Q →
        list_request_response ⟨more2, out, room⟩ library = .ret v s → 0 ≤ v →
        handle_client le Q C join fopen library (fuel + 2)
            ⟨Seg.bytes d :: more, out, room⟩ buf =
          handle_client le Q C join fopen library fuel s [] := by
  refine ⟨handle_client_skip le Q C join fopen library fuel more out room buf d line rest
    hd hfit hQmax hsplit hline hl hs, ?_⟩
  intro more2 v s hrest hmore hQ hresp hv
  rw [handle_client_skip le Q C join fopen library (fuel + 1) more out room buf d line rest
    hd hfit hQmax hsplit hline hl hs, hrest, hmore]
  exact handle_client_list le Q C join fopen library fuel more2 out room v s hQ hQmax hresp hv

/-! ### Several requests in one read, failed writes, descriptors left open -/

/-- C12 (the code at the failing input): two LIST requests. When each arrives
in a read of its own, handle_client answers both; when both arrive in one read
it answers the first only: the second stays in the request buffer, the loop
looks at the buffer once per read, and at the end of the stream the function
returns 0 with one listing written. -/
theorem handle_client_one_request_per_read :
    handle_client true 64 4 slash_join (fun _ => none) ⟨"lib".toList, ["a.wav".toList]⟩ 3
        ⟨[Seg.bytes "LIST\r\n".toList, Seg.bytes "LIST\r\n".toList], [], none⟩ [] =
      some (.ret 0 ⟨[], "0:a.wav\r\n0:a.wav\r\n".toList, none⟩) ∧
    handle_client true 64 4 slash_join (fun _ => none) ⟨"lib".toList, ["a.wav".toList]⟩ 3
        ⟨[Seg.bytes "LIST\r\nLIST\r\n".toList], [], none⟩ [] =
      some (.ret 0 ⟨[], "0:a.wav\r\n".toList, none⟩) := by
  decide

/-- C14 (the code at the failing input): a file of 10 bytes, chunks of 4, a
client that takes 6 more bytes. The write of the first chunk fails after 2
bytes (write_precisely reports an error), stream_request_response goes on
and returns 0, and handle_client, given the request and then the end of the
stream, returns 0 as well. -/
theorem stream_request_response_ignores_write_error :
    (write_precisely ⟨[], _load_file_size_into_buffer 10, some 2⟩ "0123".toList).1 = false ∧
    stream_request_response true 4 slash_join
        (fun p => if p = "lib/a.wav".toList then some "0123456789".toList else none)
        ⟨[], [], some 6⟩ ⟨"lib".toList, ["a.wav".toList]⟩ "\x00\x00\x00\x00".toList 4 =
      .ret 0 ⟨[], _load_file_size_into_buffer 10 ++ "01".toList, some 0⟩ ∧
    handle_client true 64 4 slash_join
        (fun p => if p = "lib/a.wav".toList then some "0123456789".toList else none)
        ⟨"lib".toList, ["a.wav".toList]⟩ 2
        ⟨[Seg.bytes "STREAM\r\n\x00\x00\x00\x00".toList], [], some 6⟩ [] =
      some (.ret 0 ⟨[], _load_file_size_into_buffer 10 ++ "01".toList, some 0⟩) := by
  decide

/-- C15 (the code at the failing input): declared length 4, source "abcd",
audio_out_fd = 4 and file_dest_fd = 5. When the first write to the audio sink
returns -1 the function returns -1 with neither descriptor closed; when no
write fails it returns 0 with both closed. -/
theorem error_return_leaves_sinks_open :
    transfer_closed (send_and_process_stream_request true
      (Env.socket_only (fun _ => none) (fun _ => some 1024)) 3
      ⟨[Seg.bytes (store32 false 4 ++ ['a', 'b', 'c', 'd'])], [], none⟩ 0 4 5
      SinkState.fresh SinkState.fresh) = some (-1, false, false) ∧
    transfer_closed (send_and_process_stream_request true
      (Env.socket_only (fun _ => some 1024) (fun _ => some 1024)) 3
      ⟨[Seg.bytes (store32 false 4 ++ ['a', 'b', 'c', 'd'])], [], none⟩ 0 4 5
      SinkState.fresh SinkState.fresh) = some (0, true, true) := by
  decide

/-- C17 (the code at the failing input): two workers, a blocking wait, every
waitpid succeeding. The pass for index 0 reaps 101 and shifts 102 down to
index 0; the index goes to 1, which is no longer below
num_connected_clients = 1, and the loop ends with 102 still in the array. -/
theorem wait_for_children_skips_worker :
    _wait_for_children (fun _ _ => true) [101, 102] false = [102] ∧
    (_wait_for_children (fun _ _ => true) [101, 102] false).length = 1 ∧
    _wait_for_children (fun _ _ => true) [101, 102, 103, 104, 105] false = [102, 104] := by
  decide

/-- C18 (the code at the failing input): RESPONSE_BUFFER_SIZE = 8,
BUFFER_BLEED_OFF = 4, the server sends "abcdefgh" and then the line
"0:x.wav". After the shift bytes_in_buffer is still 8: every later read asks
for 0 bytes, the line is never read and, however many reads are allowed,
get_next_filename does not return. -/
theorem get_next_filename_stalls_after_bleed (fuel : Nat) :
    get_next_filename 8 4 fuel
      ⟨⟨[Seg.bytes "abcdefgh".toList, Seg.bytes "0:x.wav\r\n".toList], [], none⟩, []⟩ =
      none := by
  cases fuel with
  | zero => decide
  | succ f =>
    have hread : read (8 - ([] : List Char).length)
        [Seg.bytes "abcdefgh".toList, Seg.bytes "0:x.wav\r\n".toList] =
        (.data "abcdefgh".toList, [Seg.bytes "0:x.wav\r\n".toList]) := by decide
    have hfind : find_network_newline ([] : List Char) = none := rfl
    rw [get_next_filename]
    simp only [hfind, hread]
    exact get_next_filename_full 8 4 f _ _ (by decide) (by decide)

/-! ### The parse of a response line -/

theorem load_file_size_mod (L : Nat) :
    _load_file_size_into_buffer L = store32 false (L % 4294967296) := by
  have h : _load_file_size_into_buffer L = _load_file_size_into_buffer (L % 4294967296) := by
    simp only [_load_file_size_into_buffer, Nat.mod_mod]
  rw [h]
  exact load_file_size_eq _ (Nat.mod_lt _ (by decide))

theorem read_header (v : Nat) (d0 : List Char) (inp : List Seg) :
    read 4 (Seg.bytes (store32 false v ++ d0) :: inp) =
      (.data (store32 false v), if d0 = [] then inp else Seg.bytes d0 :: inp) := by
  have hne : store32 false v ++ d0 ≠ [] := by simp [store32]
  have ht : (store32 false v ++ d0).take 4 = store32 false v := by
    rw [List.take_append_of_le_length (by simp [store32])]
    simp [store32]
  have hd : (store32 false v ++ d0).drop 4 = d0 := by
    have : 4 = (store32 false v).length + 0 := rfl
    rw [this, List.drop_append]; rfl
  rw [read, if_neg hne, if_neg (by decide), if_neg (by decide), ht, hd]

/-- C23: the four bytes of _load_file_size_into_buffer carry the file length
L modulo 2^32, most significant byte first. A client that takes them in its
read of the header enters its loop with bytes_to_read equal to that value
read as a signed 32-bit int: the value itself below 2^31, the value minus 2^32
(a negative number) from 2^31 on. bytes_to_read equals the file length exactly
when the length is below 2^31. -/
theorem size_header_bytes_to_read (le : Bool) (L : Nat) :
    _load_file_size_into_buffer L = store32 false (L % 4294967296) ∧
      (load32 le (_load_file_size_into_buffer L)).map (fun v => int_of_uint32 (ntohl le v)) =
        some (int_of_uint32 (L % 4294967296)) ∧
      (∀ (env : Env) (fuel file_index : Nat) (d0 out : List Char) (inp : List Seg)
          (audio_out_fd file_dest_fd : Int) (audio file : SinkState),
        send_and_process_stream_request le env fuel
            ⟨Seg.bytes (_load_file_size_into_buffer L ++ d0) :: inp, out, none⟩ file_index
            audio_out_fd file_dest_fd audio file =
          transfer_loop env audio_out_fd file_dest_fd fuel
            (transfer_start
              ⟨if d0 = [] then inp else Seg.bytes d0 :: inp,
                out ++ (REQUEST_STREAM ++ END_OF_MESSAGE_TOKEN) ++
                  store32 le (htonl le file_index), none⟩
              audio file audio_out_fd file_dest_fd (int_of_uint32 (L % 4294967296)))) ∧
      (∀ v : Nat, 2147483648 ≤ v → v < 4294967296 →
        int_of_uint32 v = (v : Int) - 4294967296 ∧ int_of_uint32 v < 0) ∧
      (∀ v : Nat, v < 2147483648 → int_of_uint32 v = (v : Int)) ∧
      (int_of_uint32 (L % 4294967296) = (L : Int) ↔ L < 2147483648) := by
  have hmod := load_file_size_mod L
  have hlt : L % 4294967296 < 4294967296 := Nat.mod_lt _ (by decide)
  have hl := ntohl_load32 le (L % 4294967296) hlt []
  rw [List.append_nil] at hl
  have hbig : ∀ v : Nat, 2147483648 ≤ v → v < 4294967296 →
      int_of_uint32 v = (v : Int) - 4294967296 ∧ int_of_uint32 v < 0 := by
    intro v h1 h2
    have hm : v % 4294967296 = v := Nat.mod_eq_of_lt h2
    have hn : ¬ v < 2147483648 := by omega
    simp only [int_of_uint32, hm, hn, if_false, true_and]
    omega
  refine ⟨hmod, ?_, ?_, hbig, int_of_uint32_small, ?_⟩
  · rw [hmod]
    cases hload : load32 le (store32 false (L % 4294967296)) with
    | none => rw [hload] at hl; simp at hl
    | some v =>
      simp only [hload, Option.map_some', Option.some.injEq] at hl
      simp [hl]
  · intro env fuel file_index d0 out inp audio_out_fd file_dest_fd audio file
    rw [hmod]
    cases hload : load32 le (store32 false (L % 4294967296)) with
    | none => rw [hload] at hl; simp at hl
    | some v =>
      simp only [hload, Option.map_some', Option.some.injEq] at hl
      simp only [send_and_process_stream_request, write_precisely_open, read_header, hload, hl]
  · constructor
    · intro h
      by_contra hL
      by_cases hs : L % 4294967296 < 2147483648
      · rw [int_of_uint32_small _ hs] at h
        omega
      · have := (hbig (L % 4294967296) (by omega) hlt).2
        omega
    · intro hL
      have hm : L % 4294967296 = L := Nat.mod_eq_of_lt (by omega)
      rw [hm]
      exact int_of_uint32_small L hL

/-! ### The heap blocks of list_request -/

theorem strncpy_block_exact (src : List Char) :
    strncpy_block src.length src src.length = some src := by
  simp [strncpy_block]

theorem strncpy_block_overrun (src : List Char) :
    strncpy_block src.length src (src.length + 1) = none := by
  simp [strncpy_block]

theorem files_printable_single (p : List Char) (h : '\x00' ∉ p) :
    files_printable [some p] = false := by
  simp [files_printable, h]

/-- A response of one line: for every well-formed line with the index 0,
arriving in any segments, list_request stores the path in a block without a
NUL, does not enter its loop and prints the block: its behaviour is
undefined. -/
theorem list_request_one_line_undefined (R B : Nat) (hRmax : R ≤ 9223372036854775807)
    (library : ClientLibrary) (out extra p : List Char) (segs : List (List Char))
    (fuel : Nat) (hp : PathOk p)
    (hcat : segs.flatten = wire_line (0, p) ++ extra)
    (hR : segs.flatten.length < R) (hfuel : segs.length < fuel) :
    list_request R B fuel ⟨⟨segs.map Seg.bytes, out, none⟩, []⟩ library = some .undefined := by
  have hfind : find_network_newline ([] ++ segs.flatten) =
      some (Nat.toDigits 10 0 ++ [':'] ++ p, extra) := by
    rw [List.nil_append, hcat]
    exact find_network_newline_wire (0, p) _ hp
  obtain ⟨segs1, buf1, hg, _, _⟩ :=
    get_next_filename_line R B (out ++ (REQUEST_LIST ++ END_OF_MESSAGE_TOKEN)) none _ _ hRmax
      segs.length segs [] fuel rfl (by simpa using hR) hfind hfuel
  have hparse := parse_wire_line 0 p (by decide) hp.1 hp.2.1 hp.2.2.2
  have hprint := files_printable_single p hp.2.2.2
  cases fuel with
  | zero => omega
  | succ f =>
    simp only [list_request, write, hg, get_next_filename_found, hparse, strncpy_block_exact]
    simp [list_request_rest, list_request_print, hprint]

/-- A response of two or more lines: for every well-formed first line with
an index n + 1 and every well-formed second line, whatever its index below
2^31, arriving in any segments, list_request copies `strlen + 1` bytes of the
second path into a block of `strlen` bytes: its behaviour is undefined. -/
theorem list_request_second_line_undefined (R B : Nat) (hRmax : R ≤ 9223372036854775807)
    (library : ClientLibrary) (out extra p0 p1 : List Char) (n i : Nat)
    (segs : List (List Char)) (fuel : Nat)
    (hn : n + 1 < 2147483647) (hi : i < 2147483648) (hp0 : PathOk p0) (hp1 : PathOk p1)
    (hcat : segs.flatten = wire_line (n + 1, p0) ++ (wire_line (i, p1) ++ extra))
    (hR : segs.flatten.length < R) (hfuel : segs.length < fuel) :
    list_request R B fuel ⟨⟨segs.map Seg.bytes, out, none⟩, []⟩ library = some .undefined := by
  have hfind : find_network_newline ([] ++ segs.flatten) =
      some (Nat.toDigits 10 (n + 1) ++ [':'] ++ p0, wire_line (i, p1) ++ extra) := by
    rw [List.nil_append, hcat]
    exact find_network_newline_wire (n + 1, p0) _ hp0
  obtain ⟨segs1, buf1, hg, hrest, hlen⟩ :=
    get_next_filename_line R B (out ++ (REQUEST_LIST ++ END_OF_MESSAGE_TOKEN)) none _ _ hRmax
      segs.length segs [] fuel rfl (by simpa using hR) hfind hfuel
  have hparse := parse_wire_line (n + 1) p0 (by omega) hp0.1 hp0.2.1 hp0.2.2.2
  have hlenR : buf1.length + segs1.flatten.length < R := by
    have h1 : segs.flatten.length =
        (wire_line (n + 1, p0)).length + (wire_line (i, p1) ++ extra).length := by
      rw [hcat, List.length_append]
    have h2 : (buf1 ++ segs1.flatten).length = (wire_line (i, p1) ++ extra).length := by
      rw [hrest]
    rw [List.length_append] at h2
    omega
  have hfind2 : find_network_newline (buf1 ++ segs1.flatten) =
      some (Nat.toDigits 10 i ++ [':'] ++ p1, extra) := by
    rw [hrest]
    exact find_network_newline_wire (i, p1) _ hp1
  obtain ⟨segs2, buf2, hg2, _, _⟩ :=
    get_next_filename_line R B (out ++ (REQUEST_LIST ++ END_OF_MESSAGE_TOKEN)) none _ _ hRmax
      segs1.length segs1 buf1 fuel rfl hlenR hfind2 (by omega)
  have hparse2 := parse_wire_line i p1 hi hp1.1 hp1.2.1 hp1.2.2.2
  have h1 : ¬ (((n + 1 : Nat) : Int) = -1) := by omega
  have h2 : ¬ (((n + 1 : Nat) : Int) = 2147483647) := by omega
  have h3 : ¬ (((n + 1 : Nat) : Int) + 1 < 0) := by omega
  have h4 : ((0 : Nat) : Int) < ((n + 1 : Nat) : Int) + 1 - 1 := by omega
  have h5 : ¬ ((i : Int) = -1) := by omega
  cases fuel with
  | zero => omega
  | succ f =>
    simp only [list_request, write, hg, get_next_filename_found, hparse, h1, h2, h3, if_false,
      strncpy_block_exact, list_request_rest, h4, if_true, hg2, hparse2, h5,
      strncpy_block_overrun]

/-- C3 (the code at the failing input): the response of two lines
"1:sub/b.wav", "0:a.wav" and the response of one line "0:a.wav". The block
of a later line has `strlen` bytes and `strncpy` writes `strlen + 1` bytes into
it: for the first response the behaviour of list_request is undefined at the
line "0:a.wav". The block of the first line holds the characters of the path
and no NUL: for the second response the loop is not entered and the
behaviour is undefined where the library is printed. In neither case does
list_request return 2, or 1, with the paths stored. -/
theorem list_request_overruns_blocks :
    strncpy_block "a.wav".toList.length "a.wav".toList ("a.wav".toList.length + 1) = none ∧
    list_request 64 16 4
        ⟨⟨[Seg.bytes "1:sub/b.wav\r\n0:a.wav\r\n".toList], [], none⟩, []⟩ ⟨[], 0, []⟩ =
      some .undefined ∧
    strncpy_block "a.wav".toList.length "a.wav".toList "a.wav".toList.length =
      some "a.wav".toList ∧
    files_printable [some "a.wav".toList] = false ∧
    list_request 64 16 4 ⟨⟨[Seg.bytes "0:a.wav\r\n".toList], [], none⟩, []⟩ ⟨[], 0, []⟩ =
      some .undefined := by
  decide

/-- C1 (the code at the failing input): for the catalog ["a.wav"] the server
writes "0:a.wav" CR LF and for ["a.wav", "sub/b.wav"] it writes
"1:sub/b.wav" CR LF "0:a.wav" CR LF; on either stream the behaviour of
list_request is undefined (a block without a NUL is printed, a block of
`strlen` bytes receives `strlen + 1` bytes) and no client library with the
paths of the server results. For the empty catalog the server writes nothing
and list_request never returns, whatever the size of the response buffer (a
size that `read` accepts as a count). -/
theorem list_roundtrip_undefined :
    (list_request_response ⟨[], [], none⟩ ⟨"lib".toList, ["a.wav".toList]⟩ =
        .ret 0 ⟨[], "0:a.wav\r\n".toList, none⟩ ∧
      list_request 64 16 4 ⟨⟨[Seg.bytes "0:a.wav\r\n".toList], [], none⟩, []⟩ ⟨[], 0, []⟩ =
        some .undefined) ∧
    (list_request_response ⟨[], [], none⟩
          ⟨"lib".toList, ["a.wav".toList, "sub/b.wav".toList]⟩ =
        .ret 0 ⟨[], "1:sub/b.wav\r\n0:a.wav\r\n".toList, none⟩ ∧
      list_request 64 16 4
          ⟨⟨[Seg.bytes "1:sub/b.wav\r\n0:a.wav\r\n".toList], [], none⟩, []⟩ ⟨[], 0, []⟩ =
        some .undefined) ∧
    (list_request_response ⟨[], [], none⟩ ⟨"lib".toList, []⟩ = .ret 0 ⟨[], [], none⟩ ∧
      ¬ ∃ (R B fuel : Nat) (o : Outcome (ClientLibrary × Client)),
        R ≤ 9223372036854775807 ∧
          list_request R B fuel ⟨⟨[], [], none⟩, []⟩ ⟨[], 0, []⟩ = some o) := by
  refine ⟨by decide, by decide, by decide, ?_⟩
  rintro ⟨R, B, fuel, o, hR, h⟩
  simp only [list_request, write, get_next_filename_silent R B hR] at h
  exact absurd h (by simp)

/-- C21 (the code at the failing input): the responses "1:b.wav", "0:a.wav"
and "1:b.wav", "7:a.wav" differ only in the index digits of the second line.
For both the behaviour of list_request is undefined at the second line (its
block of `strlen` bytes receives `strlen + 1` bytes), so neither gives a
client library and a return value. For "1:b.wav", "4294967295:a.wav" the index
of the second line reads as -1, the value get_next_filename returns on an
error: list_request returns -1 with the slot 0 not filled. -/
theorem list_request_later_line_overruns :
    list_request 64 16 4
        ⟨⟨[Seg.bytes "1:b.wav\r\n0:a.wav\r\n".toList], [], none⟩, []⟩ ⟨"lib".toList, 0, []⟩ =
      some .undefined ∧
    list_request 64 16 4
        ⟨⟨[Seg.bytes "1:b.wav\r\n7:a.wav\r\n".toList], [], none⟩, []⟩ ⟨"lib".toList, 0, []⟩ =
      some .undefined ∧
    list_outcome (list_request 64 16 4
        ⟨⟨[Seg.bytes "1:b.wav\r\n4294967295:a.wav\r\n".toList], [], none⟩, []⟩
        ⟨"lib".toList, 0, []⟩) =
      some (-1, ⟨"lib".toList, 2, [none, some "b.wav".toList]⟩) := by
  decide

/-! ### An unknown command followed by a request -/

/-- C13 (the code at the failing input): the unknown line FOO and a LIST
request. When both arrive in one read, handle_client drops FOO, leaves the
LIST request in the request buffer and blocks in `read`: nothing is written,
and at the end of the stream the function returns 0 with the request never
served. When LIST arrives in a read of its own it is answered. And with
REQUEST_BUFFER_SIZE = 8 the unknown line FOOBARBAZQUX fills the buffer before
its CR LF arrives: the next `read` asks for 0 bytes and returns 0, which ends
the connection with the LIST request behind the line unread. -/
theorem handle_client_unknown_then_list :
    handle_client true 64 4 slash_join (fun _ => none) ⟨"lib".toList, ["a.wav".toList]⟩ 3
        ⟨[Seg.bytes "FOO\r\nLIST\r\n".toList], [], none⟩ [] =
      some (.ret 0 ⟨[], [], none⟩) ∧
    handle_client true 64 4 slash_join (fun _ => none) ⟨"lib".toList, ["a.wav".toList]⟩ 3
        ⟨[Seg.bytes "FOO\r\n".toList, Seg.bytes "LIST\r\n".toList], [], none⟩ [] =
      some (.ret 0 ⟨[], "0:a.wav\r\n".toList, none⟩) ∧
    handle_client true 8 4 slash_join (fun _ => none) ⟨"lib".toList, ["a.wav".toList]⟩ 3
        ⟨[Seg.bytes "FOOBARBAZQUX\r\n".toList, Seg.bytes "LIST\r\n".toList], [], none⟩ [] =
      some (.ret 0 ⟨[Seg.bytes "ZQUX\r\n".toList, Seg.bytes "LIST\r\n".toList], [], none⟩) := by
  decide

end Streamer
